import Mathlib

/-!
Verification development for the go-jsonstream streaming JSON reader.

The Go sources are embedded shallowly: bytes are `Nat` values below 256,
byte slices are `List Nat`, the stateful `tokenReader` and `Reader` structs
become Lean structures threaded through state-passing functions, and Go's
`(value, error)` returns become pairs with `Option GoError` / `Except`
components.  Pointer-shared caller buffers (`structBuffer.Values`,
`charBuffer`, computed-value vectors) are `Option (List _)` fields; where Go
copies a `Reader` by value while the buffers stay shared (in `PreProcess`),
the embedding copies the scalar fields and merges the buffer contents back,
mirroring the aliasing.

Pieces of the repository that are referenced but whose defining files are not
in `src/` (the number scanner `readNumberProps`, the `NumberProps`
conversions, the `ArrayState`/`ObjectState` iterators, the error types and
message constants) are modelled from the specification; each such definition
carries a doc comment starting with `Modelled from the spec:`.
-/

namespace JR

abbrev Byte := Nat

/-- Translation of Go `unicode.IsSpace(rune(ch))` restricted to byte values
(0..255): Go's Latin-1 table accepts tab, LF, vertical tab, form feed, CR,
space, NEL (0x85) and NBSP (0xA0). -/
def goIsSpace (b : Byte) : Bool :=
  b == 0x09 || b == 0x0A || b == 0x0B || b == 0x0C || b == 0x0D ||
  b == 0x20 || b == 0x85 || b == 0xA0

/-- Translation of the Go helper `lower(c byte) byte` = `c | 0x20`. -/
def lowerB (b : Byte) : Byte := b ||| 0x20

def isDigitB (b : Byte) : Bool := 48 ≤ b && b ≤ 57

/-- Alias for `Bool` usable inside `TokenReader`/`Reader` dot-named
declarations, where method names such as `TokenReader.Bool` shadow the
builtin. -/
abbrev GoBool := Bool

/-- Alias for `String`, for the same reason. -/
abbrev GoStr := String

/-- One-character string from a byte value (Go `string(b)`). -/
def charStr (b : Byte) : String := String.singleton (Char.ofNat b)

/-- Modelled from the spec: §6 literal error-message strings (the constants
`errMsgUnexpectedChar` … are defined in a file absent from src/). -/
def errMsgUnexpectedChar : String := "unexpected character"

/-- Modelled from the spec: §6. -/
def errMsgUnexpectedSymbol : String := "unexpected symbol"

/-- Modelled from the spec: §6 (`"expected ':'"`, the quotes around the colon
written via character codes). -/
def errMsgExpectedColon : String :=
  "expected " ++ String.singleton (Char.ofNat 39) ++ ":" ++ String.singleton (Char.ofNat 39)

/-- Modelled from the spec: §6. -/
def errMsgInvalidNumber : String := "invalid number"

/-- Modelled from the spec: §6. -/
def errMsgInvalidString : String := "invalid string"

/-- Modelled from the spec: §6. -/
def errMsgDataAfterEnd : String := "unexpected data after end of JSON value"

/-- Modelled from the spec: §6. -/
def errMsgBadArrayItem : String := "bad array item"

/-- Modelled from the spec: §6. -/
def errMsgBadObjectItem : String := "bad object item"

inductive ValueKind where
  | nullValue
  | boolValue
  | numberValue
  | stringValue
  | arrayValue
  | objectValue
  | invalidKind
deriving DecidableEq, Repr

/-- Modelled from the spec: §4.F error taxonomy.  `synErr` is the SyntaxError
struct {Message, Value, Offset}; `typErr` is TypeError {Expected, Actual,
Offset, Nullable}; `rngErr` is the numeric RangeError; `eofErr` is Go's
`io.EOF`; `genErr` is a `fmt.Errorf` error. -/
inductive GoError where
  | synErr (message : String) (value : String) (offset : Nat)
  | typErr (expected : ValueKind) (actual : ValueKind) (offset : Nat) (nullable : Bool)
  | rngErr (msg : String)
  | eofErr
  | genErr (msg : String)
deriving DecidableEq, Repr

structure NumberProps where
  raw : List Byte := []
  mantissa : Nat := 0
  exponent : Int := 0
  isNegative : Bool := false
  trunc : Bool := false
deriving DecidableEq, Repr

inductive TokenKind where
  | nullToken
  | boolToken
  | numberToken
  | stringToken
  | delimiterToken
deriving DecidableEq, Repr

structure Token where
  kind : TokenKind := .nullToken
  boolValue : Bool := false
  numberValue : NumberProps := {}
  stringValue : List Byte := []
  delimiter : Byte := 0
deriving DecidableEq, Repr

def valueKindFromTokenKind : TokenKind → ValueKind
  | .nullToken => .nullValue
  | .boolToken => .boolValue
  | .numberToken => .numberValue
  | .stringToken => .stringValue
  | .delimiterToken => .invalidKind

def Token.valueKind (t : Token) : ValueKind :=
  if t.kind = .delimiterToken ∧ t.delimiter = 91 then .arrayValue
  else if t.kind = .delimiterToken ∧ t.delimiter = 123 then .objectValue
  else valueKindFromTokenKind t.kind

/-- Modelled from the spec: display names for ValueKind (its `String()`
method is absent from src/); only used inside token descriptions. -/
def kindName : ValueKind → String
  | .nullValue => "null"
  | .boolValue => "boolean"
  | .numberValue => "number"
  | .stringValue => "string"
  | .arrayValue => "array"
  | .objectValue => "object"
  | .invalidKind => "unknown"

def Token.description (t : Token) : String :=
  if t.kind = .delimiterToken ∧ t.delimiter ≠ 91 ∧ t.delimiter ≠ 123 then
    String.singleton (Char.ofNat 39) ++ charStr t.delimiter
      ++ String.singleton (Char.ofNat 39)
  else
    kindName t.valueKind

inductive JsonComputedValueType where
  | nothingComputed
  | numberComputed
  | stringComputed
deriving DecidableEq, Repr

structure JsonTreeStruct where
  Start : Nat := 0
  End : Nat := 0
  SubTreeSize : Nat := 0
  AssocValue : Option (List Byte) := none
  ComputedValueType : JsonComputedValueType := .nothingComputed
  ComputedValueIndex : Int := 0
deriving DecidableEq, Repr

structure ReaderOptions where
  lazyParse : Bool := false
  lazyRead : Bool := false
  computeString : Bool := false
  computeNumber : Bool := false
  readKey : Bool := false
  readRawNumbers : Bool := false
deriving DecidableEq, Repr

/-- Modelled from the spec: §4.D array iteration state (the `ArrayState`
struct is absent from src/).  `defined` plays the role of the Go `r != nil`
back-pointer; `afterFirst` distinguishes BeforeFirst from BetweenElements;
`arrayIndex` is the descriptor-table index recorded in lazy-read mode
(set by `tryArray` in src/jreader/reader.go). -/
structure ArrayState where
  defined : Bool := false
  afterFirst : Bool := false
  arrayIndex : Nat := 0
deriving DecidableEq, Repr

/-- Modelled from the spec: §4.D object iteration state (the `ObjectState`
struct is absent from src/).  `name` stores the last property name for
`Name()`. -/
structure ObjectState where
  defined : Bool := false
  afterFirst : Bool := false
  objectIndex : Nat := 0
  name : List Byte := []
deriving DecidableEq, Repr

structure AnyValue where
  Kind : ValueKind := .nullValue
  BoolV : Bool := false
  NumberV : NumberProps := {}
  StringV : List Byte := []
  ArrayV : ArrayState := {}
  ObjectV : ObjectState := {}
deriving DecidableEq, Repr

structure TokenReader where
  data : List Byte := []
  pos : Nat := 0
  len : Nat := 0
  hasUnread : Bool := false
  unreadToken : Token := {}
  lastPos : Nat := 0
  charBuffer : Option (List Byte) := none
  structPos : Nat := 0
  structValues : Option (List JsonTreeStruct) := none
  numberValues : Option (List NumberProps) := none
  stringValues : Option (List (List Byte)) := none
  anyValueBuffer : AnyValue := {}
  tokenBuffer : Token := {}
  options : ReaderOptions := {}
deriving DecidableEq, Repr

structure Reader where
  tr : TokenReader := {}
  awaitingReadValue : Bool := false
  err : Option GoError := none
deriving DecidableEq, Repr

/-! Byte-level operations of the token reader (src/unnamed/part_005). -/

/-- Translation of `JsonStructPointer.CurrentStruct` (src/jreader/reader.go).
A nil `Values` pointer behaves like an empty table here; Go would panic on
the dereference, but every call site guards the nil case. -/
def TokenReader.currentStruct (r : TokenReader) : Except GoError JsonTreeStruct :=
  let vals := r.structValues.getD []
  if r.structPos ≥ vals.length then .error (.genErr "no elements in structure")
  else .ok (vals.getD r.structPos ({} : JsonTreeStruct))

/-- Translation of `JsonStructPointer.HasNext`. -/
def TokenReader.structHasNext (r : TokenReader) : Bool :=
  r.structPos < (r.structValues.getD []).length

/-- Translation of `JsonStructPointer.Next`. -/
def TokenReader.structNext (r : TokenReader) : TokenReader × Bool :=
  if r.structHasNext then ({ r with structPos := r.structPos + 1 }, true)
  else (r, false)

/-- Translation of `JsonStructPointer.SkipSubTree`. -/
def TokenReader.skipSubTree (r : TokenReader) : TokenReader × Bool :=
  let vals := r.structValues.getD []
  if r.structPos ≥ vals.length then (r, false)
  else ({ r with structPos := r.structPos + (vals.getD r.structPos {}).SubTreeSize }, true)

def TokenReader.readByte (r : TokenReader) : TokenReader × Option Byte :=
  if r.pos ≥ r.len then (r, none)
  else ({ r with pos := r.pos + 1 }, some (r.data.getD r.pos 0))

def TokenReader.unreadByte (r : TokenReader) : TokenReader :=
  { r with pos := r.pos - 1 }

/-- Streaming branch of `skipWhitespaceAndReadByte`: read bytes until the
first non-space one (per Go `unicode.IsSpace`), recording `lastPos`.  The
fuel strictly exceeds the remaining input at every call, so exhaustion is
unreachable. -/
def TokenReader.skipWsLoopF : Nat → TokenReader → TokenReader × Option Byte
  | 0, r => (r, none)
  | fuel + 1, r =>
    if r.pos ≥ r.len then (r, none)
    else
      let b := r.data.getD r.pos 0
      if goIsSpace b then TokenReader.skipWsLoopF fuel { r with pos := r.pos + 1 }
      else ({ r with pos := r.pos + 1, lastPos := r.pos }, some b)
termination_by structural fuel _ => fuel

def TokenReader.skipWsLoop (r : TokenReader) : TokenReader × Option Byte :=
  TokenReader.skipWsLoopF (r.len + 1 - r.pos) r

def TokenReader.skipWhitespaceAndReadByte (r : TokenReader) : TokenReader × Option Byte :=
  if r.options.lazyRead then
    match r.currentStruct with
    | .error _ => (r, none)
    | .ok cur => (r, some (r.data.getD cur.Start 0))
  else
    r.skipWsLoop

/-- Translation of `consumeASCIILowercaseAlphabeticChars` (the byte read
followed by `unreadByte` on a non-lowercase byte cancels out).  Fuel as in
`skipWsLoopF`. -/
def TokenReader.consumeLowerLoopF : Nat → TokenReader → Nat → TokenReader × Nat
  | 0, r, n => (r, n)
  | fuel + 1, r, n =>
    if r.pos ≥ r.len then (r, n)
    else
      let ch := r.data.getD r.pos 0
      if 97 ≤ ch ∧ ch ≤ 122 then
        TokenReader.consumeLowerLoopF fuel { r with pos := r.pos + 1 } (n + 1)
      else (r, n)
termination_by structural fuel _ _ => fuel

def TokenReader.consumeLowerLoop (r : TokenReader) (n : Nat) : TokenReader × Nat :=
  TokenReader.consumeLowerLoopF (r.len + 1 - r.pos) r n

def TokenReader.EOF (r : TokenReader) : TokenReader × Bool :=
  if r.hasUnread then (r, false)
  else
    match r.skipWhitespaceAndReadByte with
    | (r', none) => (r', true)
    | (r', some _) => (r'.unreadByte, false)

def TokenReader.LastPos (r : TokenReader) : Nat := r.lastPos

def TokenReader.getPos (r : TokenReader) : Nat :=
  if r.hasUnread then r.lastPos else r.pos

/-! UTF-8 helpers mirroring Go `unicode/utf8` as used through
`bytes.Reader.ReadRune` and `utf8.EncodeRune`.  Bit masks are written with
division and remainder by powers of two (`b &&& 0x1F = b % 32` on the
accepted first-byte ranges, and so on). -/

/-- Go `utf8.DecodeRune` on `data` starting at index `i`: `none` only at the
end of the input (where `bytes.Reader.ReadRune` reports `io.EOF`); any
malformed or truncated sequence yields the replacement rune 0xFFFD with
size 1, exactly as in Go. -/
def utf8DecodeRuneAt (data : List Byte) (i : Nat) : Option (Nat × Nat) :=
  if i ≥ data.length then none
  else
    let b0 := data.getD i 0
    if b0 < 0x80 then some (b0, 1)
    else if b0 < 0xC2 then some (0xFFFD, 1)
    else if b0 ≤ 0xDF then
      if i + 1 < data.length then
        let b1 := data.getD (i + 1) 0
        if 0x80 ≤ b1 ∧ b1 ≤ 0xBF then some ((b0 % 32) * 64 + b1 % 64, 2)
        else some (0xFFFD, 1)
      else some (0xFFFD, 1)
    else if b0 ≤ 0xEF then
      if i + 2 < data.length then
        let b1 := data.getD (i + 1) 0
        let b2 := data.getD (i + 2) 0
        if ((if b0 = 0xE0 then 0xA0 else 0x80) ≤ b1 ∧
            b1 ≤ (if b0 = 0xED then 0x9F else 0xBF)) ∧
           (0x80 ≤ b2 ∧ b2 ≤ 0xBF) then
          some ((b0 % 16) * 4096 + (b1 % 64) * 64 + b2 % 64, 3)
        else some (0xFFFD, 1)
      else some (0xFFFD, 1)
    else if b0 ≤ 0xF4 then
      if i + 3 < data.length then
        let b1 := data.getD (i + 1) 0
        let b2 := data.getD (i + 2) 0
        let b3 := data.getD (i + 3) 0
        if ((if b0 = 0xF0 then 0x90 else 0x80) ≤ b1 ∧
            b1 ≤ (if b0 = 0xF4 then 0x8F else 0xBF)) ∧
           (0x80 ≤ b2 ∧ b2 ≤ 0xBF) ∧ (0x80 ≤ b3 ∧ b3 ≤ 0xBF) then
          some ((b0 % 8) * 262144 + (b1 % 64) * 4096 + (b2 % 64) * 64 + b3 % 64, 4)
        else some (0xFFFD, 1)
      else some (0xFFFD, 1)
    else some (0xFFFD, 1)

/-- Go `utf8.EncodeRune`: surrogate code points and out-of-range values are
replaced by the encoding of 0xFFFD. -/
def utf8EncodeRune (r : Nat) : List Byte :=
  if r ≤ 0x7F then [r]
  else if r ≤ 0x7FF then [0xC0 + r / 64, 0x80 + r % 64]
  else if r > 0x10FFFF ∨ (0xD800 ≤ r ∧ r ≤ 0xDFFF) then [0xEF, 0xBF, 0xBD]
  else if r ≤ 0xFFFF then [0xE0 + r / 4096, 0x80 + (r / 64) % 64, 0x80 + r % 64]
  else [0xF0 + r / 262144, 0x80 + (r / 4096) % 64, 0x80 + (r / 64) % 64, 0x80 + r % 64]

/-- Translation of `appendRune`. -/
def appendRune (out : List Byte) (ch : Nat) : List Byte := out ++ utf8EncodeRune ch

def hexDigitVal (b : Byte) : Option Nat :=
  if 48 ≤ b ∧ b ≤ 57 then some (b - 48)
  else if 97 ≤ b ∧ b ≤ 102 then some (b - 87)
  else if 65 ≤ b ∧ b ≤ 70 then some (b - 55)
  else none

/-- Translation of `readHexChar`: four hex digits read byte-wise starting at
index `j`; on success returns the code point and the index past the digits. -/
def readHexChar (data : List Byte) (j : Nat) : Option (Nat × Nat) :=
  if j + 3 < data.length then
    match hexDigitVal (data.getD j 0), hexDigitVal (data.getD (j + 1) 0),
          hexDigitVal (data.getD (j + 2) 0), hexDigitVal (data.getD (j + 3) 0) with
    | some d0, some d1, some d2, some d3 => some (((d0 * 16 + d1) * 16 + d2) * 16 + d3, j + 4)
    | _, _, _, _ => none
  else none

/-- Scan-only string loop of `readString` (`readKey` set or string
computation off): advance to the unescaped closing quote, tracking the
`haveEscaped` toggle; returns the index one past the closing quote.  The
fuel argument strictly exceeds the remaining input length at every call
site, and each iteration consumes at least one byte, so the fuel-exhausted
`none` is unreachable. -/
def scanStrLoop (data : List Byte) : Nat → Nat → Bool → Option Nat
  | 0, _, _ => none
  | fuel + 1, j, escaped =>
    match utf8DecodeRuneAt data j with
    | none => none
    | some (ch, sz) =>
      if ch = 92 then scanStrLoop data fuel (j + sz) (!escaped)
      else if ch = 34 ∧ escaped = false then some (j + sz)
      else scanStrLoop data fuel (j + sz) false

/-- Decoding string loop of `readString` (string computation on, not a
property name): copy runes into the char arena, resolving escapes.  Returns
the index one past the closing quote and the grown arena, or `none` for the
invalid-string error.  Fuel as in `scanStrLoop`. -/
def decodeStrLoop (data : List Byte) : Nat → Nat → List Byte → Option (Nat × List Byte)
  | 0, _, _ => none
  | fuel + 1, j, chars =>
    match utf8DecodeRuneAt data j with
    | none => none
    | some (ch, sz) =>
      if ch = 34 then some (j + sz, chars)
      else if ch ≠ 92 then decodeStrLoop data fuel (j + sz) (appendRune chars ch)
      else
        match utf8DecodeRuneAt data (j + sz) with
        | none => none
        | some (ch2, sz2) =>
          let j2 := j + sz + sz2
          if ch2 = 34 ∨ ch2 = 92 ∨ ch2 = 47 then
            decodeStrLoop data fuel j2 (appendRune chars ch2)
          else if ch2 = 98 then decodeStrLoop data fuel j2 (appendRune chars 8)
          else if ch2 = 102 then decodeStrLoop data fuel j2 (appendRune chars 12)
          else if ch2 = 110 then decodeStrLoop data fuel j2 (appendRune chars 10)
          else if ch2 = 114 then decodeStrLoop data fuel j2 (appendRune chars 13)
          else if ch2 = 116 then decodeStrLoop data fuel j2 (appendRune chars 9)
          else if ch2 = 117 then
            match readHexChar data j2 with
            | some (hr, j3) => decodeStrLoop data fuel j3 (appendRune chars hr)
            | none => none
          else none

/-- Translation of `readString` (src/unnamed/part_005): the reader is
positioned one byte past the opening quote.  The Go `bytes.Reader` becomes
an index `j` into `data`; `r.pos = r.len - reader.Len()` after the loop is
the final index. -/
def TokenReader.readString (r : TokenReader) : TokenReader × Except GoError (List Byte) :=
  let startPos := r.pos
  let chars := r.charBuffer.getD []
  let charsStartPos := chars.length
  if r.options.readKey || !r.options.computeString then
    match scanStrLoop r.data (r.data.length + 1) r.pos false with
    | none => (r, .error (.synErr errMsgInvalidString "" r.lastPos))
    | some endJ =>
      let r' := { r with pos := endJ }
      if endJ - 1 ≤ startPos then (r', .ok [])
      else (r', .ok ((r.data.drop startPos).take (endJ - 1 - startPos)))
  else
    match decodeStrLoop r.data (r.data.length + 1) r.pos chars with
    | none => (r, .error (.synErr errMsgInvalidString "" r.lastPos))
    | some (endJ, chars') =>
      let r1 := { r with pos := endJ, charBuffer := some chars' }
      let sVal := (chars'.drop charsStartPos).take (chars'.length - charsStartPos)
      let r2 :=
        if r1.options.lazyParse then
          { r1 with stringValues := some (r1.stringValues.getD [] ++ [sVal]) }
        else r1
      if chars'.length = charsStartPos then (r2, .ok [])
      else (r2, .ok sVal)

/-! Number scanner.  `readNumberProps` itself is not among the provided
sources; it is modelled from the spec (§4.A), whose decomposition rules
mirror the "golden" base-10 scan `originalReadFloat` that the repository's
own tests compare it against.  The hex branch is dropped, as §4.A allows. -/

structure NumScan where
  mantissa : Nat := 0
  sawdot : Bool := false
  sawdigits : Bool := false
  nd : Nat := 0
  ndMant : Nat := 0
  dp : Int := 0
  trunc : Bool := false
deriving DecidableEq, Repr

/-- Modelled from the spec: §4.A digit/dot loop.  Accumulates up to 19
mantissa digits, further non-zero digits set `trunc`; leading zeros before
the first significant digit decrement `dp`; a dot records `dp := nd`.
Returns the count of bytes consumed, the scan state and the remaining
bytes. -/
def numDigitsLoop : List Byte → Nat → NumScan → Nat × NumScan × List Byte
  | [], i, st => (i, st, [])
  | c :: tl, i, st =>
    if c = 46 then
      if st.sawdot then (i, st, c :: tl)
      else numDigitsLoop tl (i + 1) { st with sawdot := true, dp := st.nd }
    else if isDigitB c then
      let st1 := { st with sawdigits := true }
      if c = 48 ∧ st1.nd = 0 then numDigitsLoop tl (i + 1) { st1 with dp := st1.dp - 1 }
      else
        let st2 := { st1 with nd := st1.nd + 1 }
        if st2.ndMant < 19 then
          numDigitsLoop tl (i + 1)
            { st2 with mantissa := st2.mantissa * 10 + (c - 48), ndMant := st2.ndMant + 1 }
        else if c ≠ 48 then numDigitsLoop tl (i + 1) { st2 with trunc := true }
        else numDigitsLoop tl (i + 1) st2
    else (i, st, c :: tl)

/-- Modelled from the spec: §4.A exponent digits with the 10000 cap (digits
past the cap are consumed but discarded). -/
def expDigitsLoop : List Byte → Nat → Nat → Nat × Nat × List Byte
  | [], i, e => (i, e, [])
  | c :: tl, i, e =>
    if isDigitB c then
      if e < 10000 then expDigitsLoop tl (i + 1) (e * 10 + (c - 48))
      else expDigitsLoop tl (i + 1) e
    else (i, e, c :: tl)

/-- Modelled from the spec: §4.A final decomposition, `exponent = dp -
ndMant (+ signed exponent)` when the mantissa is nonzero, else 0; `raw` is
the consumed prefix of the literal. -/
def finishNum (neg : Bool) (st : NumScan) (dp : Int) (i : Nat) (s : List Byte) :
    NumberProps × Nat × Bool :=
  let expv : Int := if st.mantissa ≠ 0 then dp - st.ndMant else 0
  ({ raw := s.take i, mantissa := st.mantissa, exponent := expv,
     isNegative := neg, trunc := st.trunc }, i, true)

/-- Modelled from the spec: §4.A number grammar — optional sign, digits with
leading zeros tolerated and at most one dot, optional `[eE][+-]?digits`
exponent.  Returns the decomposed properties, the number of bytes consumed
and the validity flag. -/
def scanNumber (s : List Byte) : NumberProps × Nat × Bool :=
  let signRes : Bool × Nat × List Byte :=
    match s with
    | 43 :: tl => (false, 1, tl)
    | 45 :: tl => (true, 1, tl)
    | _ => (false, 0, s)
  let neg := signRes.1
  let (i1, st, s1) := numDigitsLoop signRes.2.2 signRes.2.1 {}
  if !st.sawdigits then ({}, i1, false)
  else
    let dp0 : Int := if st.sawdot then st.dp else (st.nd : Int)
    match s1 with
    | c :: tl =>
      if lowerB c = 101 then
        match tl with
        | [] => ({}, i1 + 1, false)
        | c2 :: tl2 =>
          let signRes2 : Int × Nat × List Byte :=
            if c2 = 43 then (1, i1 + 2, tl2)
            else if c2 = 45 then (-1, i1 + 2, tl2)
            else (1, i1 + 1, c2 :: tl2)
          match signRes2.2.2 with
          | c3 :: _ =>
            if isDigitB c3 then
              let (i3, e, _) := expDigitsLoop signRes2.2.2 signRes2.2.1 0
              finishNum neg st (dp0 + signRes2.1 * e) i3 s
            else ({}, signRes2.2.1, false)
          | [] => ({}, signRes2.2.1, false)
      else finishNum neg st dp0 i1 s
    | [] => finishNum neg st dp0 i1 s

/-- Translation of `readNumber` (src/unnamed/part_005) on top of the
spec-modelled scanner: the number's first byte sits at `r.lastPos` (already
consumed by the dispatcher); the scan covers the input from there and the
reader is left positioned right after the consumed literal.  With
`lazyParse` and `computeNumber` both set, a successful result is appended
to the computed-numbers vector. -/
def TokenReader.readNumber (r : TokenReader) : TokenReader × NumberProps × Bool :=
  let (props, i, ok) := scanNumber (r.data.drop r.lastPos)
  let r' := { r with pos := r.lastPos + i }
  if ok ∧ r'.options.lazyParse ∧ r'.options.computeNumber then
    ({ r' with numberValues := some (r'.numberValues.getD [] ++ [props]) }, props, ok)
  else (r', props, ok)

/-! Host-language numeric parsers used by the raw-read path
(`strconv.ParseInt` / `strconv.ParseUint` with base 10 and 64 bits),
modelled by their observable results: syntax errors yield 0, range
overflows clamp to the extreme representable value, and the error kind is
reported alongside. -/

inductive StrconvErr where
  | errSyntax
  | errRange
deriving DecidableEq, Repr

def parseDecDigits : List Byte → Option Nat
  | [] => none
  | l => l.foldl (fun acc c => match acc with
      | none => none
      | some n => if isDigitB c then some (n * 10 + (c - 48)) else none) (some 0)

/-- Go `strconv.ParseInt(string(s), 10, 64)`: observable value and error. -/
def goParseInt (s : List Byte) : Int × Option StrconvErr :=
  let core : Bool × List Byte :=
    match s with
    | 43 :: tl => (false, tl)
    | 45 :: tl => (true, tl)
    | _ => (false, s)
  match parseDecDigits core.2 with
  | none => (0, some .errSyntax)
  | some n =>
    if core.1 then
      if n > 2 ^ 63 then (-(2 ^ 63 : Int), some .errRange) else (-(n : Int), none)
    else
      if n > 2 ^ 63 - 1 then ((2 ^ 63 - 1 : Int), some .errRange) else ((n : Int), none)

/-- Go `strconv.ParseUint(string(s), 10, 64)`: no sign prefix is permitted. -/
def goParseUint (s : List Byte) : Nat × Option StrconvErr :=
  match parseDecDigits s with
  | none => (0, some .errSyntax)
  | some n => if n > 2 ^ 64 - 1 then (2 ^ 64 - 1, some .errRange) else (n, none)

/-- Modelled from the spec: §4.A conversion of NumberProps to `int64`
(`NumberProps.Int64` is absent from src/): fails — as a range error per
§4.F — if the exponent is nonzero, the literal was truncated, or the
mantissa exceeds the representable range for the sign. -/
def NumberProps.toInt64 (p : NumberProps) : Except GoError Int :=
  if p.exponent ≠ 0 ∨ p.trunc then .error (.rngErr "value out of int64 range")
  else if p.isNegative then
    if p.mantissa > 2 ^ 63 then .error (.rngErr "value out of int64 range")
    else .ok (-(p.mantissa : Int))
  else
    if p.mantissa > 2 ^ 63 - 1 then .error (.rngErr "value out of int64 range")
    else .ok (p.mantissa : Int)

/-- Modelled from the spec: §4.A conversion of NumberProps to `uint64`:
fails if negative, the exponent is nonzero, or the mantissa exceeds
2^64 - 1. -/
def NumberProps.toUInt64 (p : NumberProps) : Except GoError Nat :=
  if p.isNegative ∨ p.exponent ≠ 0 then .error (.rngErr "value out of uint64 range")
  else if p.mantissa > 2 ^ 64 - 1 then .error (.rngErr "value out of uint64 range")
  else .ok p.mantissa

/-! Token-level operations (src/unnamed/part_005). -/

/-- Byte list shown as a string, for the `Value` field of syntax errors
(Go `string(bytes)`). -/
def bytesToString (l : List Byte) : String :=
  String.mk (l.map Char.ofNat)

def TokenReader.putBack (r : TokenReader) (t : Token) : TokenReader :=
  { r with unreadToken := t, hasUnread := true }

/-- Translation of `tokenReader.next`.  Token results mutate the reused
`tokenBuffer` (fields not set by a branch keep their previous, stale
values, as in Go). -/
def TokenReader.next (r : TokenReader) : TokenReader × Except GoError Token :=
  if r.hasUnread then
    ({ r with hasUnread := false }, .ok r.unreadToken)
  else
    match r.skipWhitespaceAndReadByte with
    | (r1, none) => (r1, .error .eofErr)
    | (r1, some b) =>
      if 97 ≤ b ∧ b ≤ 122 then
        if r1.options.lazyRead then
          let r2 := r1.structNext.1
          if b = 102 then
            let tok := { r2.tokenBuffer with kind := .boolToken, boolValue := false }
            ({ r2 with tokenBuffer := tok }, .ok tok)
          else if b = 116 then
            let tok := { r2.tokenBuffer with kind := .boolToken, boolValue := true }
            ({ r2 with tokenBuffer := tok }, .ok tok)
          else if b = 110 then
            let tok := { r2.tokenBuffer with kind := .nullToken }
            ({ r2 with tokenBuffer := tok }, .ok tok)
          else
            (r2, .error (.synErr errMsgUnexpectedSymbol
              (charStr b) r2.lastPos))
        else
          let (r2, n0) := r1.consumeLowerLoop 0
          let id := (r2.data.drop r2.lastPos).take (n0 + 1)
          if b = 102 ∧ id = [102, 97, 108, 115, 101] then
            let tok := { r2.tokenBuffer with kind := .boolToken, boolValue := false }
            ({ r2 with tokenBuffer := tok }, .ok tok)
          else if b = 116 ∧ id = [116, 114, 117, 101] then
            let tok := { r2.tokenBuffer with kind := .boolToken, boolValue := true }
            ({ r2 with tokenBuffer := tok }, .ok tok)
          else if b = 110 ∧ id = [110, 117, 108, 108] then
            let tok := { r2.tokenBuffer with kind := .nullToken }
            ({ r2 with tokenBuffer := tok }, .ok tok)
          else
            (r2, .error (.synErr errMsgUnexpectedSymbol (bytesToString id) r2.lastPos))
      else if (48 ≤ b ∧ b ≤ 57) ∨ b = 45 then
        if r1.options.lazyRead then
          let cur := match r1.currentStruct with
            | .ok c => c
            | .error _ => {}
          let nv : NumberProps :=
            if r1.options.computeNumber then
              (r1.numberValues.getD []).getD cur.ComputedValueIndex.toNat {}
            else
              { raw := (r1.data.drop cur.Start).take (cur.End - cur.Start) }
          let r2 := r1.structNext.1
          let tok := { r2.tokenBuffer with kind := .numberToken, numberValue := nv }
          ({ r2 with tokenBuffer := tok }, .ok tok)
        else
          match r1.readNumber with
          | (r2, props, ok) =>
            if ok then
              let tok := { r2.tokenBuffer with kind := .numberToken, numberValue := props }
              ({ r2 with tokenBuffer := tok }, .ok tok)
            else
              (r2, .error (.synErr errMsgInvalidNumber "" r2.lastPos))
      else if b = 34 then
        if r1.options.lazyRead then
          let cur := match r1.currentStruct with
            | .ok c => c
            | .error _ => {}
          let sBytes :=
            if r1.options.computeString ∧ ¬r1.options.readKey then
              (r1.stringValues.getD []).getD cur.ComputedValueIndex.toNat []
            else
              (r1.data.drop (cur.Start + 1)).take (cur.End - 1 - (cur.Start + 1))
          let r2 := r1.structNext.1
          let tok := { r2.tokenBuffer with kind := .stringToken, stringValue := sBytes }
          ({ r2 with tokenBuffer := tok }, .ok tok)
        else
          match r1.readString with
          | (r2, .error e) => (r2, .error e)
          | (r2, .ok s) =>
            let tok := { r2.tokenBuffer with kind := .stringToken, stringValue := s }
            ({ r2 with tokenBuffer := tok }, .ok tok)
      else if b = 91 ∨ b = 93 ∨ b = 123 ∨ b = 125 ∨ b = 58 ∨ b = 44 then
        let tok := { r1.tokenBuffer with kind := .delimiterToken, delimiter := b }
        ({ r1 with tokenBuffer := tok }, .ok tok)
      else
        (r1, .error (.synErr errMsgUnexpectedChar
          (charStr b) r1.lastPos))

def TokenReader.consumeScalar (r : TokenReader) (kind : TokenKind) :
    TokenReader × Except GoError Token :=
  match r.next with
  | (r1, .error e) => (r1, .error e)
  | (r1, .ok t) =>
    if t.kind = kind then (r1, .ok t)
    else if t.kind = .delimiterToken ∧ t.delimiter ≠ 91 ∧ t.delimiter ≠ 123 then
      (r1, .error (.synErr errMsgUnexpectedChar
        (charStr t.delimiter) r1.LastPos))
    else
      (r1, .error (.typErr (valueKindFromTokenKind kind) t.valueKind r1.LastPos false))

/-- Translation of `tokenReader.Null`: `(true, nil)` consumes a null token,
`(false, nil)` puts any other valid token back, bare non-open delimiters
are syntax errors. -/
def TokenReader.Null (r : TokenReader) : TokenReader × Bool × Option GoError :=
  match r.next with
  | (r1, .error e) => (r1, false, some e)
  | (r1, .ok t) =>
    if t.kind = .nullToken then (r1, true, none)
    else
      let r2 := r1.putBack t
      if t.kind = .delimiterToken ∧ t.delimiter ≠ 91 ∧ t.delimiter ≠ 123 then
        (r2, false, some (.synErr errMsgUnexpectedChar
          (charStr t.delimiter) r2.getPos))
      else (r2, false, none)

def TokenReader.Bool (r : TokenReader) : TokenReader × Except GoError Bool :=
  match r.consumeScalar .boolToken with
  | (r1, .error e) => (r1, .error e)
  | (r1, .ok t) => (r1, .ok t.boolValue)

def TokenReader.Number (r : TokenReader) : TokenReader × Except GoError NumberProps :=
  match r.consumeScalar .numberToken with
  | (r1, .error e) => (r1, .error e)
  | (r1, .ok t) => (r1, .ok t.numberValue)

def TokenReader.String (r : TokenReader) : TokenReader × Except GoError (List Byte) :=
  match r.consumeScalar .stringToken with
  | (r1, .error e) => (r1, .error e)
  | (r1, .ok t) => (r1, .ok t.stringValue)

def TokenReader.clearReadKey (r : TokenReader) : TokenReader :=
  { r with options := { r.options with readKey := false } }

def TokenReader.syntaxErrorOnNextToken (r : TokenReader) (msg : GoStr) :
    TokenReader × GoError :=
  match r.next with
  | (r1, .error e) => (r1, e)
  | (r1, .ok t) => (r1, .synErr msg t.description r1.LastPos)

/-- Translation of `tokenReader.PropertyName`: a string token (with
`readKey` set for the duration, so the raw scan is used) followed by a
mandatory colon byte. -/
def TokenReader.PropertyName (r : TokenReader) : TokenReader × Except GoError (List Byte) :=
  let rk := { r with options := { r.options with readKey := true } }
  match rk.consumeScalar .stringToken with
  | (r1, .error e) => (r1.clearReadKey, .error e)
  | (r1, .ok t) =>
    match r1.skipWhitespaceAndReadByte with
    | (r2, none) => (r2.clearReadKey, .error .eofErr)
    | (r2, some b) =>
      if b = 58 then (r2.clearReadKey, .ok t.stringValue)
      else
        match r2.unreadByte.syntaxErrorOnNextToken errMsgExpectedColon with
        | (r3, e) => (r3.clearReadKey, .error e)

def TokenReader.Delimiter (r : TokenReader) (delimiter : Byte) :
    TokenReader × Except GoError GoBool :=
  if r.options.lazyRead then
    match r.currentStruct with
    | .error e => (r, .error e)
    | .ok cur => (r, .ok (r.data.getD cur.Start 0 = delimiter))
  else
    if r.hasUnread then
      if r.unreadToken.kind = .delimiterToken ∧ r.unreadToken.delimiter = delimiter then
        ({ r with hasUnread := false }, .ok true)
      else (r, .ok false)
    else
      match r.skipWhitespaceAndReadByte with
      | (r1, none) => (r1, .ok false)
      | (r1, some b) =>
        if b = delimiter then (r1, .ok true)
        else
          match r1.unreadByte.next with
          | (r3, .error e) => (r3, .error e)
          | (r3, .ok t) => (r3.putBack t, .ok false)

def badArrayOrObjectItemMessage (isObject : Bool) : String :=
  if isObject then errMsgBadObjectItem else errMsgBadArrayItem

def TokenReader.EndDelimiterOrComma (r : TokenReader) (delimiter : Byte) :
    TokenReader × Except GoError GoBool :=
  if r.options.lazyRead then
    (r, .error (.genErr ("can" ++ charStr 39 ++ "t be used in lazy mode")))
  else
    if r.hasUnread then
      if r.unreadToken.kind = .delimiterToken ∧
         (r.unreadToken.delimiter = delimiter ∨ r.unreadToken.delimiter = 44) then
        ({ r with hasUnread := false }, .ok (r.unreadToken.delimiter = delimiter))
      else
        (r, .error (.synErr (badArrayOrObjectItemMessage (delimiter = 125))
          r.unreadToken.description r.lastPos))
    else
      match r.skipWhitespaceAndReadByte with
      | (r1, none) => (r1, .error .eofErr)
      | (r1, some b) =>
        if b = delimiter ∨ b = 44 then (r1, .ok (b = delimiter))
        else
          match r1.unreadByte.next with
          | (r3, .error e) => (r3, .error e)
          | (r3, .ok t) =>
            (r3, .error (.synErr (badArrayOrObjectItemMessage (delimiter = 125))
              t.description r3.lastPos))

/-- Translation of `tokenReader.Any`: results mutate the reused
`anyValueBuffer`, fields not set by a branch keeping stale values as in
Go. -/
def TokenReader.Any (r : TokenReader) : TokenReader × Except GoError AnyValue :=
  match r.next with
  | (r1, .error e) => (r1, .error e)
  | (r1, .ok t) =>
    match t.kind with
    | .boolToken =>
      let av := { r1.anyValueBuffer with Kind := .boolValue, BoolV := t.boolValue }
      ({ r1 with anyValueBuffer := av }, .ok av)
    | .numberToken =>
      let av := { r1.anyValueBuffer with Kind := .numberValue, NumberV := t.numberValue }
      ({ r1 with anyValueBuffer := av }, .ok av)
    | .stringToken =>
      let av := { r1.anyValueBuffer with Kind := .stringValue, StringV := t.stringValue }
      ({ r1 with anyValueBuffer := av }, .ok av)
    | .delimiterToken =>
      if t.delimiter = 91 then
        let av := { r1.anyValueBuffer with Kind := .arrayValue }
        ({ r1 with anyValueBuffer := av }, .ok av)
      else if t.delimiter = 123 then
        let av := { r1.anyValueBuffer with Kind := .objectValue }
        ({ r1 with anyValueBuffer := av }, .ok av)
      else
        (r1, .error (.synErr errMsgUnexpectedChar
          (charStr t.delimiter) r1.lastPos))
    | .nullToken =>
      let av := { r1.anyValueBuffer with Kind := .nullValue }
      ({ r1 with anyValueBuffer := av }, .ok av)

/-- Translation of `tokenReader.Reset`. -/
def TokenReader.Reset (r : TokenReader) (data : List Byte) : TokenReader :=
  { r with
    data := data
    len := data.length
    pos := 0
    hasUnread := false
    charBuffer := r.charBuffer.map (fun _ => [])
    structPos := 0
    structValues := r.structValues.map (fun _ => [])
    stringValues := r.stringValues.map (fun _ => [])
    numberValues := r.numberValues.map (fun _ => [])
    options := { r.options with
      computeString := r.stringValues.isSome
      computeNumber := r.numberValues.isSome
      readKey := false
      lazyParse := false
      lazyRead := false
      readRawNumbers := true } }

/-- Translation of `newTokenReader`. -/
def newTokenReader (data : List Byte) (buffer : Option (List JsonTreeStruct))
    (charBuffer : Option (List Byte)) (numberValues : Option (List NumberProps))
    (stringValues : Option (List (List Byte))) : TokenReader :=
  TokenReader.Reset
    { structValues := buffer, charBuffer := charBuffer,
      numberValues := numberValues, stringValues := stringValues } data

/-! Typed reader (src/jreader/reader.go). -/

/-- Alias for `NumberProps`, usable after `Reader.NumberProps` shadows the
name inside `Reader` dot-named declarations. -/
abbrev NProps := NumberProps

def typeErrorForNullableValue : GoError → GoError
  | .typErr exp act off _ => .typErr exp act off true
  | e => e

def Reader.Error (r : Reader) : Option GoError := r.err

def Reader.Reset (r : Reader) (data : List Byte) : Reader :=
  { r with err := none, awaitingReadValue := false, tr := r.tr.Reset data }

def Reader.AddError (r : Reader) (e : Option GoError) : Reader :=
  if r.err = none then { r with err := e } else r

def Reader.ReplaceError (r : Reader) (e : Option GoError) : Reader :=
  match e with
  | some _ => { r with err := e }
  | none => r

def Reader.RequireEOF (r : Reader) : Reader × Option GoError :=
  match r.tr.EOF with
  | (tr', false) => ({ r with tr := tr' }, some (.synErr errMsgDataAfterEnd "" tr'.LastPos))
  | (tr', true) => ({ r with tr := tr' }, none)

/-- Translation of `typeErrorForCurrentToken`: consumes the next token via
`tokenReader.Any` to name the actual kind. -/
def Reader.typeErrorForCurrentToken (r : Reader) (expected : ValueKind) (nullable : Bool) :
    Reader × GoError :=
  match r.tr.Any with
  | (tr', .error e) => ({ r with tr := tr' }, e)
  | (tr', .ok v) => ({ r with tr := tr' }, .typErr expected v.Kind tr'.LastPos nullable)

/-- Translation of `Reader.Null` (note: unlike the other typed reads it
reports a failure without latching it). -/
def Reader.Null (r : Reader) : Reader × Option GoError :=
  let r0 := { r with awaitingReadValue := false }
  match r0.err with
  | some e => (r0, some e)
  | none =>
    match r0.tr.Null with
    | (tr1, isNull, err) =>
      let r1 := { r0 with tr := tr1 }
      if isNull ∨ err.isSome then (r1, err)
      else
        match r1.typeErrorForCurrentToken .nullValue false with
        | (r2, e) => (r2, some e)

def Reader.Bool (r : Reader) : Reader × GoBool :=
  let r0 := { r with awaitingReadValue := false }
  match r0.err with
  | some _ => (r0, false)
  | none =>
    match r0.tr.Bool with
    | (tr1, .error e) => ({ r0 with tr := tr1, err := some e }, false)
    | (tr1, .ok v) => ({ r0 with tr := tr1 }, v)

def Reader.BoolOrNull (r : Reader) : Reader × GoBool × GoBool :=
  let r0 := { r with awaitingReadValue := false }
  match r0.err with
  | some _ => (r0, false, false)
  | none =>
    match r0.tr.Null with
    | (tr1, isNull, err) =>
      if isNull ∨ err.isSome then ({ r0 with tr := tr1, err := err }, false, false)
      else
        match tr1.Bool with
        | (tr2, .error e) =>
          ({ r0 with tr := tr2, err := some (typeErrorForNullableValue e) }, false, false)
        | (tr2, .ok v) => ({ r0 with tr := tr2 }, v, true)

def Reader.NumberProps (r : Reader) : Reader × Option NProps :=
  let r0 := { r with awaitingReadValue := false }
  match r0.err with
  | some _ => (r0, none)
  | none =>
    match r0.tr.Number with
    | (tr1, .error e) => ({ r0 with tr := tr1, err := some e }, none)
    | (tr1, .ok v) => ({ r0 with tr := tr1 }, some v)

def Reader.NumberPropsOrNull (r : Reader) : Reader × Option NProps × GoBool :=
  let r0 := { r with awaitingReadValue := false }
  match r0.err with
  | some _ => (r0, none, false)
  | none =>
    match r0.tr.Null with
    | (tr1, isNull, err) =>
      if isNull ∨ err.isSome then ({ r0 with tr := tr1, err := err }, none, false)
      else
        match tr1.Number with
        | (tr2, .error e) =>
          ({ r0 with tr := tr2, err := some (typeErrorForNullableValue e) }, none, false)
        | (tr2, .ok v) => ({ r0 with tr := tr2 }, some v, true)

def Reader.Number (r : Reader) : Reader × List Byte :=
  let r0 := { r with awaitingReadValue := false }
  match r0.err with
  | some _ => (r0, [])
  | none =>
    match r0.tr.Number with
    | (tr1, .error e) => ({ r0 with tr := tr1, err := some e }, [])
    | (tr1, .ok v) => ({ r0 with tr := tr1 }, v.raw)

def Reader.NumberOrNull (r : Reader) : Reader × List Byte × GoBool :=
  let r0 := { r with awaitingReadValue := false }
  match r0.err with
  | some _ => (r0, [], false)
  | none =>
    match r0.tr.Null with
    | (tr1, isNull, err) =>
      if isNull ∨ err.isSome then ({ r0 with tr := tr1, err := err }, [], false)
      else
        match tr1.Number with
        | (tr2, .error e) =>
          ({ r0 with tr := tr2, err := some (typeErrorForNullableValue e) }, [], false)
        | (tr2, .ok v) => ({ r0 with tr := tr2 }, v.raw, true)

def Reader.IsNumbersRaw (r : Reader) : GoBool :=
  r.tr.options.lazyRead && !r.tr.options.computeNumber

def Reader.UInt64 (r : Reader) : Reader × Nat :=
  let r0 := { r with awaitingReadValue := false }
  match r0.err with
  | some _ => (r0, 0)
  | none =>
    match r0.tr.Number with
    | (tr1, .error e) => ({ r0 with tr := tr1, err := some e }, 0)
    | (tr1, .ok val) =>
      let r1 := { r0 with tr := tr1 }
      if r1.IsNumbersRaw then (r1, (goParseUint val.raw).1)
      else
        match val.toUInt64 with
        | .error e => ({ r1 with err := some e }, 0)
        | .ok v => (r1, v)

def Reader.UInt64OrNull (r : Reader) : Reader × Nat × GoBool :=
  let r0 := { r with awaitingReadValue := false }
  match r0.err with
  | some _ => (r0, 0, false)
  | none =>
    match r0.tr.Null with
    | (tr1, isNull, err) =>
      if isNull ∨ err.isSome then ({ r0 with tr := tr1, err := err }, 0, false)
      else
        match tr1.Number with
        | (tr2, .error e) =>
          ({ r0 with tr := tr2, err := some (typeErrorForNullableValue e) }, 0, false)
        | (tr2, .ok val) =>
          let r1 := { r0 with tr := tr2 }
          if r1.IsNumbersRaw then
            match goParseUint val.raw with
            | (v, e) => (r1, v, e.isNone)
          else
            match val.toUInt64 with
            | .error e => ({ r1 with err := some e }, 0, false)
            | .ok v => (r1, v, true)

def Reader.Int64 (r : Reader) : Reader × Int :=
  let r0 := { r with awaitingReadValue := false }
  match r0.err with
  | some _ => (r0, 0)
  | none =>
    match r0.tr.Number with
    | (tr1, .error e) => ({ r0 with tr := tr1, err := some e }, 0)
    | (tr1, .ok val) =>
      let r1 := { r0 with tr := tr1 }
      if r1.IsNumbersRaw then (r1, (goParseInt val.raw).1)
      else
        match val.toInt64 with
        | .error e => ({ r1 with err := some e }, 0)
        | .ok v => (r1, v)

def Reader.Int64OrNull (r : Reader) : Reader × Int × GoBool :=
  let r0 := { r with awaitingReadValue := false }
  match r0.err with
  | some _ => (r0, 0, false)
  | none =>
    match r0.tr.Null with
    | (tr1, isNull, err) =>
      if isNull ∨ err.isSome then ({ r0 with tr := tr1, err := err }, 0, false)
      else
        match tr1.Number with
        | (tr2, .error e) =>
          ({ r0 with tr := tr2, err := some (typeErrorForNullableValue e) }, 0, false)
        | (tr2, .ok val) =>
          let r1 := { r0 with tr := tr2 }
          if r1.IsNumbersRaw then
            match goParseInt val.raw with
            | (v, e) => (r1, v, e.isNone)
          else
            match val.toInt64 with
            | .error e => ({ r1 with err := some e }, 0, false)
            | .ok v => (r1, v, true)

def Reader.String (r : Reader) : Reader × List Byte :=
  let r0 := { r with awaitingReadValue := false }
  match r0.err with
  | some _ => (r0, [])
  | none =>
    match r0.tr.String with
    | (tr1, .error e) => ({ r0 with tr := tr1, err := some e }, [])
    | (tr1, .ok v) => ({ r0 with tr := tr1 }, v)

def Reader.StringOrNull (r : Reader) : Reader × List Byte × GoBool :=
  let r0 := { r with awaitingReadValue := false }
  match r0.err with
  | some _ => (r0, [], false)
  | none =>
    match r0.tr.Null with
    | (tr1, isNull, err) =>
      if isNull ∨ err.isSome then ({ r0 with tr := tr1, err := err }, [], false)
      else
        match tr1.String with
        | (tr2, .error e) =>
          ({ r0 with tr := tr2, err := some (typeErrorForNullableValue e) }, [], false)
        | (tr2, .ok v) => ({ r0 with tr := tr2 }, v, true)

def Reader.tryArray (r : Reader) (allowNull : GoBool) : Reader × ArrayState :=
  let r0 := { r with awaitingReadValue := false }
  match r0.err with
  | some _ => (r0, {})
  | none =>
    let afterNull : Reader × Option (Reader × ArrayState) :=
      if allowNull then
        match r0.tr.Null with
        | (tr1, isNull, err) =>
          match err with
          | some e => (r0, some ({ r0 with tr := tr1, err := some e }, {}))
          | none =>
            if isNull then (r0, some ({ r0 with tr := tr1 }, {}))
            else ({ r0 with tr := tr1 }, none)
      else (r0, none)
    match afterNull with
    | (_, some out) => out
    | (r1, none) =>
      match r1.tr.Delimiter 91 with
      | (tr2, .error e) => ({ r1 with tr := tr2, err := some e }, {})
      | (tr2, .ok gotDelim) =>
        let r2 := { r1 with tr := tr2 }
        if gotDelim then
          if r2.tr.options.lazyRead then
            (r2, { defined := true, arrayIndex := r2.tr.structPos })
          else (r2, { defined := true })
        else
          match r2.typeErrorForCurrentToken .arrayValue allowNull with
          | (r3, e) => ({ r3 with err := some e }, {})

def Reader.Array (r : Reader) : Reader × ArrayState := r.tryArray false

def Reader.ArrayOrNull (r : Reader) : Reader × ArrayState := r.tryArray true

def Reader.tryObject (r : Reader) (allowNull : GoBool) : Reader × ObjectState :=
  let r0 := { r with awaitingReadValue := false }
  match r0.err with
  | some _ => (r0, {})
  | none =>
    let afterNull : Reader × Option (Reader × ObjectState) :=
      if allowNull then
        match r0.tr.Null with
        | (tr1, isNull, err) =>
          if err.isSome ∨ isNull then (r0, some ({ r0 with tr := tr1, err := err }, {}))
          else ({ r0 with tr := tr1 }, none)
      else (r0, none)
    match afterNull with
    | (_, some out) => out
    | (r1, none) =>
      match r1.tr.Delimiter 123 with
      | (tr2, .error e) => ({ r1 with tr := tr2, err := some e }, {})
      | (tr2, .ok gotDelim) =>
        let r2 := { r1 with tr := tr2 }
        if gotDelim then
          if r2.tr.options.lazyRead then
            (r2, { defined := true, objectIndex := r2.tr.structPos })
          else (r2, { defined := true })
        else
          match r2.typeErrorForCurrentToken .objectValue allowNull with
          | (r3, e) => ({ r3 with err := some e }, {})

def Reader.Object (r : Reader) : Reader × ObjectState := r.tryObject false

def Reader.ObjectOrNull (r : Reader) : Reader × ObjectState := r.tryObject true

/-- Translation of `Reader.Any`: for containers the embedded iterator state
is initialized (and written back into the shared `anyValueBuffer`, as the
Go code does through the returned pointer). -/
def Reader.Any (r : Reader) : Reader × Option AnyValue :=
  let r0 := { r with awaitingReadValue := false }
  match r0.err with
  | some _ => (r0, none)
  | none =>
    match r0.tr.Any with
    | (tr1, .error e) => ({ r0 with tr := tr1, err := some e }, none)
    | (tr1, .ok v) =>
      match v.Kind with
      | .arrayValue =>
        let v1 := { v with ArrayV :=
          { v.ArrayV with arrayIndex := tr1.structPos, defined := true } }
        ({ r0 with tr := { tr1 with anyValueBuffer := v1 } }, some v1)
      | .objectValue =>
        let v1 := { v with ObjectV :=
          { v.ObjectV with objectIndex := tr1.structPos, defined := true } }
        ({ r0 with tr := { tr1 with anyValueBuffer := v1 } }, some v1)
      | _ => ({ r0 with tr := tr1 }, some v)

def Reader.SetNumberRawRead (r : Reader) (readRaw : GoBool) : Reader :=
  { r with tr := { r.tr with options := { r.tr.options with readRawNumbers := readRaw } } }

def Reader.IsPreProcessed (r : Reader) : GoBool :=
  r.tr.options.lazyRead && r.tr.structHasNext

def Reader.SyncWithPreProcess (r : Reader) : Reader :=
  if r.tr.structValues.isNone then r
  else if r.tr.options.lazyRead then
    let r1 := { r with tr := { r.tr with options := { r.tr.options with lazyRead := false } } }
    let vals := r1.tr.structValues.getD []
    if vals.length ≠ 0 then
      { r1 with tr := { r1.tr with pos := (vals.getD 0 ({} : JsonTreeStruct)).End } }
    else r1
  else r

/-- Update of one descriptor-table entry (`(*tree)[i] = f((*tree)[i])`). -/
def Reader.modifyTree (r : Reader) (i : Nat) (f : JsonTreeStruct → JsonTreeStruct) : Reader :=
  let tree := r.tr.structValues.getD []
  { r with tr := { r.tr with structValues := some (tree.set i (f (tree.getD i ({} : JsonTreeStruct)))) } }

/-! Recursive part of the typed reader: `SkipValue`, the container
iterators, and the pre-process walk.  Go's recursion is bounded by the
input; here every function takes a fuel argument, and the lemmas below are
stated for sufficiently large fuel. -/

mutual

/-- Translation of `Reader.SkipValue`.  The lazy-read branch runs before
the error-latch check, as in the source.  When `Any` fails on malformed
input the Go code would dereference a nil pointer; the embedding returns
the latched error instead (that path is exercised by no claim). -/
def Reader.skipValueF : Nat → Reader → Reader × Option GoError
  | 0, r => (r, some (.genErr "fuel exhausted"))
  | fuel + 1, r =>
    if r.tr.options.lazyRead then
      match r.tr.skipSubTree with
      | (tr1, true) => ({ r with tr := tr1 }, none)
      | (tr1, false) =>
        ({ r with tr := tr1 }, some (.genErr ("subtree can" ++ charStr 39 ++ "t be skipped")))
    else
      let r0 := { r with awaitingReadValue := false }
      match r0.err with
      | some e => (r0, some e)
      | none =>
        match r0.Any with
        | (r1, none) => (r1, r1.err)
        | (r1, some v) =>
          if v.Kind = .arrayValue then
            match Reader.arrLoopF fuel v.ArrayV r1 with
            | (_, r2) => (r2, r2.err)
          else if v.Kind = .objectValue then
            match Reader.objLoopF fuel v.ObjectV r1 with
            | (_, r2) => (r2, r2.err)
          else (r1, r1.err)
termination_by structural fuel _ => fuel

/-- Modelled from the spec: §4.D array iteration state machine.  Streaming:
BeforeFirst tries the closing bracket via `Delimiter`, BetweenElements
skips an unread element and then reads comma-or-bracket via
`EndDelimiterOrComma`; errors are latched with `AddError` and stop the
iteration, as does an already-latched error.  Lazy-read (spec §4.E / §9:
containers are iterated strictly through the descriptor cursor): the first
`Next` moves the cursor past the container's own descriptor; iteration
continues while the cursor is inside the container's subtree, each fully
read element having advanced the cursor by its own subtree. -/
def ArrayState.nextF : Nat → ArrayState → Reader → ArrayState × Reader × Bool
  | 0, a, r => (a, r, false)
  | fuel + 1, a, r =>
    if !a.defined then (a, r, false)
    else if r.err.isSome then (a, r, false)
    else if r.tr.options.lazyRead then
      let vals := r.tr.structValues.getD []
      let bound := a.arrayIndex + (vals.getD a.arrayIndex ({} : JsonTreeStruct)).SubTreeSize
      if !a.afterFirst then
        let a1 := { a with afterFirst := true }
        let r1 := { r with tr := { r.tr with structPos := a.arrayIndex + 1 } }
        if a.arrayIndex + 1 < bound then (a1, { r1 with awaitingReadValue := true }, true)
        else (a1, r1, false)
      else
        if r.tr.structPos < bound then (a, { r with awaitingReadValue := true }, true)
        else (a, r, false)
    else
      let skipped : Option (Reader) :=
        if r.awaitingReadValue then
          match Reader.skipValueF fuel r with
          | (_, some _) => none
          | (r1, none) => some r1
        else some r
      match skipped with
      | none =>
        match Reader.skipValueF fuel r with
        | (r1, _) => (a, r1, false)
      | some r1 =>
        if a.afterFirst then
          match r1.tr.EndDelimiterOrComma 93 with
          | (tr2, .error e) => (a, ({ r1 with tr := tr2 } : Reader).AddError (some e), false)
          | (tr2, .ok isEnd) =>
            if isEnd then (a, { r1 with tr := tr2 }, false)
            else (a, { r1 with tr := tr2, awaitingReadValue := true }, true)
        else
          let a1 := { a with afterFirst := true }
          match r1.tr.Delimiter 93 with
          | (tr2, .error e) => (a1, ({ r1 with tr := tr2 } : Reader).AddError (some e), false)
          | (tr2, .ok isEnd) =>
            if isEnd then (a1, { r1 with tr := tr2 }, false)
            else (a1, { r1 with tr := tr2, awaitingReadValue := true }, true)
termination_by structural fuel _ _ => fuel

/-- Modelled from the spec: §4.D object iteration state machine — as for
arrays, but a successful step also reads the property name (raw bytes) via
`PropertyName`; in lazy-read mode the name comes from the descriptor's
`assoc_key`. -/
def ObjectState.nextF : Nat → ObjectState → Reader → ObjectState × Reader × Bool
  | 0, o, r => (o, r, false)
  | fuel + 1, o, r =>
    if !o.defined then (o, r, false)
    else if r.err.isSome then (o, r, false)
    else if r.tr.options.lazyRead then
      let vals := r.tr.structValues.getD []
      let bound := o.objectIndex + (vals.getD o.objectIndex ({} : JsonTreeStruct)).SubTreeSize
      if !o.afterFirst then
        let cursor := o.objectIndex + 1
        let r1 := { r with tr := { r.tr with structPos := cursor } }
        if cursor < bound then
          let nm := (vals.getD cursor ({} : JsonTreeStruct)).AssocValue.getD []
          ({ o with afterFirst := true, name := nm },
           { r1 with awaitingReadValue := true }, true)
        else ({ o with afterFirst := true }, r1, false)
      else
        if r.tr.structPos < bound then
          let nm := (vals.getD r.tr.structPos ({} : JsonTreeStruct)).AssocValue.getD []
          ({ o with name := nm }, { r with awaitingReadValue := true }, true)
        else (o, r, false)
    else
      let skipped : Option (Reader) :=
        if r.awaitingReadValue then
          match Reader.skipValueF fuel r with
          | (_, some _) => none
          | (r1, none) => some r1
        else some r
      match skipped with
      | none =>
        match Reader.skipValueF fuel r with
        | (r1, _) => (o, r1, false)
      | some r1 =>
        let step : ObjectState × Reader × Except GoError Bool :=
          if o.afterFirst then
            match r1.tr.EndDelimiterOrComma 125 with
            | (tr2, res) => (o, { r1 with tr := tr2 }, res)
          else
            match r1.tr.Delimiter 125 with
            | (tr2, res) => ({ o with afterFirst := true }, { r1 with tr := tr2 }, res)
        match step with
        | (o1, r2, .error e) => (o1, r2.AddError (some e), false)
        | (o1, r2, .ok isEnd) =>
          if isEnd then (o1, r2, false)
          else
            match r2.tr.PropertyName with
            | (tr3, .error e) => (o1, ({ r2 with tr := tr3 } : Reader).AddError (some e), false)
            | (tr3, .ok nm) =>
              ({ o1 with name := nm },
               { r2 with tr := tr3, awaitingReadValue := true }, true)
termination_by structural fuel _ _ => fuel

/-- Driver of `for arr.Next() {}` inside `SkipValue`. -/
def Reader.arrLoopF : Nat → ArrayState → Reader → ArrayState × Reader
  | 0, a, r => (a, r)
  | fuel + 1, a, r =>
    match ArrayState.nextF fuel a r with
    | (a1, r1, true) => Reader.arrLoopF fuel a1 r1
    | (a1, r1, false) => (a1, r1)
termination_by structural fuel _ _ => fuel

/-- Driver of `for obj.Next() {}` inside `SkipValue`. -/
def Reader.objLoopF : Nat → ObjectState → Reader → ObjectState × Reader
  | 0, o, r => (o, r)
  | fuel + 1, o, r =>
    match ObjectState.nextF fuel o r with
    | (o1, r1, true) => Reader.objLoopF fuel o1 r1
    | (o1, r1, false) => (o1, r1)
termination_by structural fuel _ _ => fuel

/-- Translation of the object-children loop in `Reader.preProcess`. -/
def Reader.ppObjLoopF : Nat → Nat → ObjectState → Reader → Reader
  | 0, _, _, r => r
  | fuel + 1, pos, kv, r =>
    match ObjectState.nextF fuel kv r with
    | (_, r1, false) => r1
    | (kv1, r1, true) =>
      let nextPos := (r1.tr.structValues.getD []).length
      let key := kv1.name
      let r2 := Reader.preProcessF fuel r1
      let tree := r2.tr.structValues.getD []
      let r3 :=
        if nextPos < tree.length then
          let childSize := (tree.getD nextPos ({} : JsonTreeStruct)).SubTreeSize
          (r2.modifyTree pos
              (fun e => { e with SubTreeSize := e.SubTreeSize + childSize })).modifyTree
            nextPos (fun e => { e with AssocValue := some key })
        else r2
      Reader.ppObjLoopF fuel pos kv1 r3
termination_by structural fuel _ _ _ => fuel

/-- Translation of the array-children loop in `Reader.preProcess`. -/
def Reader.ppArrLoopF : Nat → Nat → ArrayState → Reader → Reader
  | 0, _, _, r => r
  | fuel + 1, pos, v, r =>
    match ArrayState.nextF fuel v r with
    | (_, r1, false) => r1
    | (v1, r1, true) =>
      let nextPos := (r1.tr.structValues.getD []).length
      let r2 := Reader.preProcessF fuel r1
      let tree := r2.tr.structValues.getD []
      let r3 :=
        if nextPos < tree.length then
          let childSize := (tree.getD nextPos ({} : JsonTreeStruct)).SubTreeSize
          r2.modifyTree pos (fun e => { e with SubTreeSize := e.SubTreeSize + childSize })
        else r2
      Reader.ppArrLoopF fuel pos v1 r3
termination_by structural fuel _ _ _ => fuel

/-- Translation of the recursive walk `Reader.preProcess`: read a value via
`Any`, append its descriptor (`start` = last-token offset, `subtree_size` =
1, plus the computed-value link for scalars), recurse into container
children accumulating their subtree sizes and `assoc_key`s, and finally set
`end` to the current byte position. -/
def Reader.preProcessF : Nat → Reader → Reader
  | 0, r => r
  | fuel + 1, r =>
    match r.Any with
    | (r1, none) =>
      { r1 with err := some (.genErr ("can" ++ charStr 39 ++ "t parse value")) }
    | (r1, some value) =>
      let pos := (r1.tr.structValues.getD []).length
      let newTree := r1.tr.structValues.getD [] ++
        [({ Start := r1.tr.lastPos, SubTreeSize := 1 } : JsonTreeStruct)]
      let r2 := { r1 with tr := { r1.tr with structValues := some newTree } }
      let r4 :=
        match value.Kind with
        | .numberValue =>
          if r2.tr.options.computeNumber then
            r2.modifyTree pos (fun e =>
              { e with
                ComputedValueType := .numberComputed
                ComputedValueIndex := ((r2.tr.numberValues.getD []).length : Int) - 1 })
          else r2
        | .stringValue =>
          if r2.tr.options.computeString then
            r2.modifyTree pos (fun e =>
              { e with
                ComputedValueType := .stringComputed
                ComputedValueIndex := ((r2.tr.stringValues.getD []).length : Int) - 1 })
          else r2
        | .objectValue => Reader.ppObjLoopF fuel pos value.ObjectV r2
        | .arrayValue => Reader.ppArrLoopF fuel pos value.ArrayV r2
        | _ => r2
      r4.modifyTree pos (fun e => { e with End := r4.tr.pos })
termination_by structural fuel _ => fuel

end

/-- Translation of `Reader.SkipValue` at a given fuel. -/
def Reader.SkipValue (fuel : Nat) (r : Reader) : Reader × Option GoError :=
  Reader.skipValueF fuel r

/-- Public `Next` of the array iterator at a given fuel. -/
def ArrayState.Next (fuel : Nat) (a : ArrayState) (r : Reader) :
    ArrayState × Reader × Bool :=
  ArrayState.nextF fuel a r

/-- Public `Next` of the object iterator at a given fuel. -/
def ObjectState.Next (fuel : Nat) (o : ObjectState) (r : Reader) :
    ObjectState × Reader × Bool :=
  ObjectState.nextF fuel o r

def ArrayState.IsDefined (a : ArrayState) : GoBool := a.defined

def ObjectState.IsDefined (o : ObjectState) : GoBool := o.defined

/-- Modelled from the spec: `Name()` returns the last property name read by
`Next`. -/
def ObjectState.Name (o : ObjectState) : List Byte := o.name

/-- Translation of `Reader.PreProcess`.  `cr := *r` copies the scalar
fields while the four buffers stay shared through pointers: the embedding
runs the walk on the copy and merges the walk's buffer contents back,
leaving the caller-visible scalar state (including `err`, `pos` and the
descriptor cursor, reset to 0 before the copy's walk) untouched. -/
def Reader.PreProcess (fuel : Nat) (r : Reader) : Reader :=
  if r.tr.structValues.isNone ∨ r.tr.charBuffer.isNone then r
  else
    let rA := { r with tr := { r.tr with options :=
      { r.tr.options with lazyParse := true, lazyRead := false } } }
    let cr0 := { rA with tr := { rA.tr with
      structValues := some ([] : List JsonTreeStruct)
      charBuffer := some ([] : List Byte)
      stringValues := if rA.tr.options.computeString then
          rA.tr.stringValues.map (fun _ => []) else rA.tr.stringValues
      numberValues := if rA.tr.options.computeNumber then
          rA.tr.numberValues.map (fun _ => []) else rA.tr.numberValues } }
    let cr1 := Reader.preProcessF fuel cr0
    { rA with tr := { cr0.tr with
        structPos := 0
        structValues := cr1.tr.structValues
        charBuffer := cr1.tr.charBuffer
        stringValues := cr1.tr.stringValues
        numberValues := cr1.tr.numberValues
        options := { rA.tr.options with lazyRead := true, lazyParse := false } } }

/-- Translation of `NewReaderWithBuffers` (src/unnamed/part_003): the
variant that latches an error when the char buffer is missing and re-sets
`readRawNumbers`. -/
def NewReaderWithBuffers (data : List Byte) (structB : Option (List JsonTreeStruct))
    (charB : Option (List Byte)) (numB : Option (List NumberProps))
    (strB : Option (List (List Byte))) : Reader :=
  let r : Reader := { tr := newTokenReader data structB charB numB strB }
  let r1 := { r with tr := { r.tr with options :=
    { r.tr.options with readRawNumbers := true } } }
  if charB.isNone then
    { r1 with err := some (.genErr "char buffer must be initilized") }
  else r1

/-- Translation of `NewReader`: fresh empty struct and char buffers, no
computed-value buffers. -/
def NewReader (data : List Byte) : Reader :=
  NewReaderWithBuffers data (some []) (some []) none none

/-! Auxiliary predicates used to state the claims. -/

def GoError.isSyn : GoError → Bool
  | .synErr _ _ _ => true
  | _ => false

/-- Mapping of the single-character escapes recognized by the decoder, as
the spec lists them (§4.B). -/
def escOut (c : Byte) : Option (List Byte) :=
  if c = 34 ∨ c = 92 ∨ c = 47 then some [c]
  else if c = 98 then some [8]
  else if c = 102 then some [12]
  else if c = 110 then some [10]
  else if c = 114 then some [13]
  else if c = 116 then some [9]
  else none

/-- Byte sequences that Go UTF-8 accepts as exactly one scalar code point
(the sequences `utf8.DecodeRune` decodes without replacement). -/
def validScalarSeq : List Byte → Bool
  | [b] => b < 0x80
  | [b0, b1] => 0xC2 ≤ b0 && b0 ≤ 0xDF && 0x80 ≤ b1 && b1 ≤ 0xBF
  | [b0, b1, b2] =>
    0xE0 ≤ b0 && b0 ≤ 0xEF &&
    (if b0 = 0xE0 then 0xA0 else 0x80) ≤ b1 && b1 ≤ (if b0 = 0xED then 0x9F else 0xBF) &&
    0x80 ≤ b2 && b2 ≤ 0xBF
  | [b0, b1, b2, b3] =>
    0xF0 ≤ b0 && b0 ≤ 0xF4 &&
    (if b0 = 0xF0 then 0x90 else 0x80) ≤ b1 && b1 ≤ (if b0 = 0xF4 then 0x8F else 0xBF) &&
    0x80 ≤ b2 && b2 ≤ 0xBF && 0x80 ≤ b3 && b3 ≤ 0xBF
  | _ => false

/-- Contents on which the scan-only string loop runs byte-aligned (ASCII)
and stops exactly at the closing quote that follows: tracks the
`haveEscaped` toggle, forbids an unescaped quote inside, and requires the
final escape state to be off. -/
def scanContentOk : List Byte → Bool → Bool
  | [], esc => !esc
  | c :: tl, esc =>
    if c = 92 then scanContentOk tl (!esc)
    else if c = 34 ∧ esc = false then false
    else c < 0x80 && scanContentOk tl false

/-! Canonical JSON documents.  A document is an abstract tree; its canonical
serialization (no inter-token whitespace, numbers as plain digit strings,
strings of printable ASCII without escapes) is the input family over which
the two-pass claims are proved. -/

inductive JVal where
  | jnull
  | jbool (b : Bool)
  | jnum (ds : List Byte)
  | jstr (s : List Byte)
  | jarr (elems : List JVal)
  | jobj (mems : List (List Byte × JVal))
deriving Repr

def plainStrByte (c : Byte) : Bool := 0x20 ≤ c && c < 0x80 && c ≠ 34 && c ≠ 92

mutual

/-- Well-formedness for the canonical family: numbers are nonempty digit
strings, strings and keys are printable ASCII without quotes or
backslashes. -/
def wfJ : JVal → Bool
  | .jnull => true
  | .jbool _ => true
  | .jnum ds => !ds.isEmpty && ds.all isDigitB
  | .jstr s => s.all plainStrByte
  | .jarr es => wfJList es
  | .jobj ms => wfJMems ms

def wfJList : List JVal → Bool
  | [] => true
  | v :: tl => wfJ v && wfJList tl

def wfJMems : List (List Byte × JVal) → Bool
  | [] => true
  | (k, v) :: tl => k.all plainStrByte && wfJ v && wfJMems tl

end

mutual

def serializeVal : JVal → List Byte
  | .jnull => [110, 117, 108, 108]
  | .jbool true => [116, 114, 117, 101]
  | .jbool false => [102, 97, 108, 115, 101]
  | .jnum ds => ds
  | .jstr s => 34 :: (s ++ [34])
  | .jarr es => 91 :: (serializeItems es ++ [93])
  | .jobj ms => 123 :: (serializeMems ms ++ [125])

def serializeItems : List JVal → List Byte
  | [] => []
  | [v] => serializeVal v
  | v :: tl => serializeVal v ++ 44 :: serializeItems tl

def serializeMems : List (List Byte × JVal) → List Byte
  | [] => []
  | [(k, v)] => 34 :: (k ++ [34, 58]) ++ serializeVal v
  | (k, v) :: tl => (34 :: (k ++ [34, 58]) ++ serializeVal v) ++ 44 :: serializeMems tl

end

mutual

def nodeCount : JVal → Nat
  | .jarr es => 1 + nodeCountList es
  | .jobj ms => 1 + nodeCountMems ms
  | _ => 1

def nodeCountList : List JVal → Nat
  | [] => 0
  | v :: tl => nodeCount v + nodeCountList tl

def nodeCountMems : List (List Byte × JVal) → Nat
  | [] => 0
  | (_, v) :: tl => nodeCount v + nodeCountMems tl

end

/-- Set the `assoc_key` on the root entry of a child's descriptor block. -/
def withKey (k : List Byte) : List JsonTreeStruct → List JsonTreeStruct
  | [] => []
  | e :: tl => { e with AssocValue := some k } :: tl

mutual

/-- Expected descriptor table of a canonical document serialized starting
at byte offset `base`: one entry per value in pre-order, `Start`/`End`
spanning its serialization, `SubTreeSize` the number of entries covering
its subtree, object members carrying their raw key in `AssocValue`. -/
def descTable : JVal → Nat → List JsonTreeStruct
  | .jarr es, base =>
    { Start := base, End := base + (serializeVal (.jarr es)).length,
      SubTreeSize := nodeCount (.jarr es) } :: descList es (base + 1)
  | .jobj ms, base =>
    { Start := base, End := base + (serializeVal (.jobj ms)).length,
      SubTreeSize := nodeCount (.jobj ms) } :: descMems ms (base + 1)
  | v, base =>
    [{ Start := base, End := base + (serializeVal v).length, SubTreeSize := 1 }]

def descList : List JVal → Nat → List JsonTreeStruct
  | [], _ => []
  | v :: tl, base => descTable v base ++ descList tl (base + (serializeVal v).length + 1)

def descMems : List (List Byte × JVal) → Nat → List JsonTreeStruct
  | [], _ => []
  | (k, v) :: tl, base =>
    withKey k (descTable v (base + k.length + 3)) ++
      descMems tl (base + k.length + 3 + (serializeVal v).length + 1)

end

/-! Typed-read scripts: a formalization of "a sequence of typed-reader
calls that fully consumes the document".  A script mirrors the calls a
decoder makes — one typed read per value, container reads iterating with
`Next` (plus `Name` for objects) and reading each element, `SkipValue`
consuming any value whole. -/

inductive Script where
  | snull
  | sbool
  | snum
  | sstr
  | sskip
  | sarr (elems : List Script)
  | sobj (elems : List Script)
deriving Repr

mutual

def matchesScript : Script → JVal → Bool
  | .snull, .jnull => true
  | .sbool, .jbool _ => true
  | .snum, .jnum _ => true
  | .sstr, .jstr _ => true
  | .sskip, _ => true
  | .sarr ss, .jarr es => matchesList ss es
  | .sobj ss, .jobj ms => matchesMems ss ms
  | _, _ => false

def matchesList : List Script → List JVal → Bool
  | [], [] => true
  | s :: stl, v :: vtl => matchesScript s v && matchesList stl vtl
  | _, _ => false

def matchesMems : List Script → List (List Byte × JVal) → Bool
  | [], [] => true
  | s :: stl, (_, v) :: vtl => matchesScript s v && matchesMems stl vtl
  | _, _ => false

end

/-- Observations produced by a script run: every value returned by a typed
read, every iterator step, every property name, and every error outcome. -/
inductive Obs where
  | onull (e : Option GoError)
  | obool (b : Bool)
  | onum (raw : List Byte)
  | ostr (s : List Byte)
  | oskip (e : Option GoError)
  | onext (more : Bool)
  | oname (k : List Byte)
deriving DecidableEq, Repr

mutual

/-- Execution of a script against a reader (same code runs in streaming and
lazy-read mode; the reader state decides). -/
def runScriptF : Nat → Script → Reader → Reader × List Obs
  | _, .snull, r => match r.Null with | (r1, e) => (r1, [.onull e])
  | _, .sbool, r => match r.Bool with | (r1, b) => (r1, [.obool b])
  | _, .snum, r => match r.Number with | (r1, raw) => (r1, [.onum raw])
  | _, .sstr, r => match r.String with | (r1, s) => (r1, [.ostr s])
  | fuel, .sskip, r => match Reader.skipValueF fuel r with | (r1, e) => (r1, [.oskip e])
  | fuel, .sarr ss, r =>
    match r.Array with
    | (r1, a) => runArrScripts fuel ss a r1
  | fuel, .sobj ss, r =>
    match r.Object with
    | (r1, o) => runObjScripts fuel ss o r1

def runArrScripts : Nat → List Script → ArrayState → Reader → Reader × List Obs
  | 0, _, _, r => (r, [])
  | fuel + 1, [], a, r =>
    match ArrayState.nextF (fuel + 1) a r with
    | (_, r1, more) => (r1, [.onext more])
  | fuel + 1, s :: tl, a, r =>
    match ArrayState.nextF (fuel + 1) a r with
    | (a1, r1, more) =>
      if more then
        match runScriptF fuel s r1 with
        | (r2, obs) =>
          match runArrScripts fuel tl a1 r2 with
          | (r3, obs2) => (r3, .onext true :: (obs ++ obs2))
      else (r1, [.onext false])

def runObjScripts : Nat → List Script → ObjectState → Reader → Reader × List Obs
  | 0, _, _, r => (r, [])
  | fuel + 1, [], o, r =>
    match ObjectState.nextF (fuel + 1) o r with
    | (_, r1, more) => (r1, [.onext more])
  | fuel + 1, s :: tl, o, r =>
    match ObjectState.nextF (fuel + 1) o r with
    | (o1, r1, more) =>
      if more then
        match runScriptF fuel s r1 with
        | (r2, obs) =>
          match runObjScripts fuel tl o1 r2 with
          | (r3, obs2) => (r3, .onext true :: .oname o1.name :: (obs ++ obs2))
      else (r1, [.onext false])

end

mutual

/-- Expected observations of a matching script against a document. -/
def expObs : Script → JVal → List Obs
  | .snull, _ => [.onull none]
  | .sbool, .jbool b => [.obool b]
  | .snum, .jnum ds => [.onum ds]
  | .sstr, .jstr s => [.ostr s]
  | .sskip, _ => [.oskip none]
  | .sarr ss, .jarr es => expArr ss es
  | .sobj ss, .jobj ms => expObj ss ms
  | _, _ => []

def expArr : List Script → List JVal → List Obs
  | [], _ => [.onext false]
  | s :: tl, v :: vs => .onext true :: (expObs s v ++ expArr tl vs)
  | _ :: _, [] => []

def expObj : List Script → List (List Byte × JVal) → List Obs
  | [], _ => [.onext false]
  | s :: tl, (k, v) :: ms => .onext true :: .oname k :: (expObs s v ++ expObj tl ms)
  | _ :: _, [] => []

end

mutual

/-- Fuel sufficient to drive any run over a document (generous). -/
def jfuel : JVal → Nat
  | .jarr es => 4 + jfuelList es
  | .jobj ms => 4 + jfuelMems ms
  | _ => 4

def jfuelList : List JVal → Nat
  | [] => 0
  | v :: tl => jfuel v + 4 + jfuelList tl

def jfuelMems : List (List Byte × JVal) → Nat
  | [] => 0
  | (_, v) :: tl => jfuel v + 4 + jfuelMems tl

end

/-- State transformer that only rewrites the `readRawNumbers` option — the
field `SetNumberRawRead` assigns. -/
def setRawOpt (b : GoBool) (tr : TokenReader) : TokenReader :=
  { tr with options := { tr.options with readRawNumbers := b } }

/-! Theorems. -/

/-- C10: `PreProcess()` on a reader constructed with struct and char
buffers never changes the reader's own error latch — the recursive walk
runs on a copy whose error is discarded — and leaves the reader in
lazy-read mode with `lazyParse` cleared and the descriptor cursor at zero,
for every starting state (malformed input and already-latched errors
included) and every fuel. -/
theorem c10_preprocess_latch (r : Reader) (fuel : Nat)
    (hs : r.tr.structValues.isSome = true) (hc : r.tr.charBuffer.isSome = true) :
    (Reader.PreProcess fuel r).err = r.err ∧
    (Reader.PreProcess fuel r).tr.options.lazyRead = true ∧
    (Reader.PreProcess fuel r).tr.options.lazyParse = false ∧
    (Reader.PreProcess fuel r).tr.structPos = 0 := by
  have hg : ¬(r.tr.structValues.isNone ∨ r.tr.charBuffer.isNone) := by
    rcases hv : r.tr.structValues with _ | v <;> rcases hw : r.tr.charBuffer with _ | w <;>
      simp_all
  rw [Reader.PreProcess, if_neg hg]
  exact ⟨rfl, rfl, rfl, rfl⟩

/-- Witness for C10 at a concrete reader over the malformed input `x`. -/
theorem c10_witness :
    (Reader.PreProcess 5 (NewReader [120])).err = (NewReader [120]).err ∧
    (Reader.PreProcess 5 (NewReader [120])).tr.options.lazyRead = true ∧
    (Reader.PreProcess 5 (NewReader [120])).tr.options.lazyParse = false ∧
    (Reader.PreProcess 5 (NewReader [120])).tr.structPos = 0 :=
  c10_preprocess_latch (NewReader [120]) 5 rfl rfl

/-- C2, counterexample: on a pre-processed reader (lazy-read mode) with a
latched error, `SkipValue` is not short-circuited — it advances the
descriptor cursor from 0 to 2 (consuming the whole subtree served from the
table) and returns `nil` rather than the latched error, because the
lazy-read branch runs before the latch check. -/
theorem c2_counterexample :
    (((NewReader [91, 49, 93]).PreProcess 20).AddError (some (.genErr "sorry"))).err
        = some (.genErr "sorry") ∧
    (((NewReader [91, 49, 93]).PreProcess 20).AddError
        (some (.genErr "sorry"))).tr.structPos = 0 ∧
    ((((NewReader [91, 49, 93]).PreProcess 20).AddError
        (some (.genErr "sorry"))).SkipValue 20).1.tr.structPos = 2 ∧
    ((((NewReader [91, 49, 93]).PreProcess 20).AddError
        (some (.genErr "sorry"))).SkipValue 20).2 = none := by
  simp [NewReader, NewReaderWithBuffers, newTokenReader, TokenReader.Reset,
    Reader.PreProcess, Reader.preProcessF, Reader.AddError, Reader.SkipValue, Reader.skipValueF,
    Reader.Any, TokenReader.Any, TokenReader.next, TokenReader.skipWhitespaceAndReadByte,
    TokenReader.skipWsLoop, TokenReader.skipWsLoopF, goIsSpace, TokenReader.currentStruct,
    TokenReader.structNext, TokenReader.structHasNext, TokenReader.skipSubTree,
    TokenReader.readNumber, scanNumber, numDigitsLoop, expDigitsLoop, finishNum, isDigitB,
    Reader.ppArrLoopF, Reader.ppObjLoopF, ArrayState.nextF, ObjectState.nextF,
    TokenReader.Delimiter, TokenReader.EndDelimiterOrComma, TokenReader.putBack,
    Reader.modifyTree, Reader.arrLoopF, Reader.objLoopF, lowerB, TokenReader.readByte,
    TokenReader.unreadByte, badArrayOrObjectItemMessage]

/-- C2, amended: with the error latch set, every public typed read other
than `SkipValue`-in-lazy-read-mode returns its zero value, leaves the token
reader (and hence the input position and descriptor cursor) untouched
except for clearing the awaiting-read flag, and leaves the latch unchanged;
`Null` and streaming-mode `SkipValue` propagate the latched error itself,
and both iterators' `Next` return false without any state change. -/
theorem c2_latch_shortcircuit (r : Reader) (e : GoError) (h : r.err = some e) :
    r.Null = ({ r with awaitingReadValue := false }, some e) ∧
    r.Bool = ({ r with awaitingReadValue := false }, false) ∧
    r.BoolOrNull = ({ r with awaitingReadValue := false }, false, false) ∧
    r.NumberProps = ({ r with awaitingReadValue := false }, none) ∧
    r.NumberPropsOrNull = ({ r with awaitingReadValue := false }, none, false) ∧
    r.Number = ({ r with awaitingReadValue := false }, []) ∧
    r.NumberOrNull = ({ r with awaitingReadValue := false }, [], false) ∧
    r.UInt64 = ({ r with awaitingReadValue := false }, 0) ∧
    r.UInt64OrNull = ({ r with awaitingReadValue := false }, 0, false) ∧
    r.Int64 = ({ r with awaitingReadValue := false }, 0) ∧
    r.Int64OrNull = ({ r with awaitingReadValue := false }, 0, false) ∧
    r.String = ({ r with awaitingReadValue := false }, []) ∧
    r.StringOrNull = ({ r with awaitingReadValue := false }, [], false) ∧
    r.Array = ({ r with awaitingReadValue := false }, {}) ∧
    r.ArrayOrNull = ({ r with awaitingReadValue := false }, {}) ∧
    r.Object = ({ r with awaitingReadValue := false }, {}) ∧
    r.ObjectOrNull = ({ r with awaitingReadValue := false }, {}) ∧
    r.Any = ({ r with awaitingReadValue := false }, none) ∧
    (∀ fuel, r.tr.options.lazyRead = false →
      r.SkipValue (fuel + 1) = ({ r with awaitingReadValue := false }, some e)) ∧
    (∀ fuel a, ArrayState.nextF (fuel + 1) a r = (a, r, false)) ∧
    (∀ fuel o, ObjectState.nextF (fuel + 1) o r = (o, r, false)) := by
  refine ⟨?_, ?_, ?_, ?_, ?_, ?_, ?_, ?_, ?_, ?_, ?_, ?_, ?_, ?_, ?_, ?_, ?_, ?_, ?_, ?_, ?_⟩
  · simp [Reader.Null, h]
  · simp [Reader.Bool, h]
  · simp [Reader.BoolOrNull, h]
  · simp [Reader.NumberProps, h]
  · simp [Reader.NumberPropsOrNull, h]
  · simp [Reader.Number, h]
  · simp [Reader.NumberOrNull, h]
  · simp [Reader.UInt64, h]
  · simp [Reader.UInt64OrNull, h]
  · simp [Reader.Int64, h]
  · simp [Reader.Int64OrNull, h]
  · simp [Reader.String, h]
  · simp [Reader.StringOrNull, h]
  · simp [Reader.Array, Reader.tryArray, h]
  · simp [Reader.ArrayOrNull, Reader.tryArray, h]
  · simp [Reader.Object, Reader.tryObject, h]
  · simp [Reader.ObjectOrNull, Reader.tryObject, h]
  · simp [Reader.Any, h]
  · intro fuel hl
    simp [Reader.SkipValue, Reader.skipValueF, h, hl]
  · intro fuel a
    cases ha : a.defined <;> simp [ArrayState.nextF, h, ha]
  · intro fuel o
    cases ho : o.defined <;> simp [ObjectState.nextF, h, ho]

/-- Witness for C2's amended theorem at a concrete latched reader. -/
theorem c2_latch_witness :
    ((NewReader [49]).AddError (some (.genErr "sorry"))).Bool =
      ({ (NewReader [49]).AddError (some (.genErr "sorry")) with
          awaitingReadValue := false }, false) ∧
    (((NewReader [49]).AddError (some (.genErr "sorry"))).SkipValue 1 =
      ({ (NewReader [49]).AddError (some (.genErr "sorry")) with
          awaitingReadValue := false }, some (.genErr "sorry"))) :=
  ⟨(c2_latch_shortcircuit ((NewReader [49]).AddError (some (.genErr "sorry")))
      (.genErr "sorry") rfl).2.1,
   (c2_latch_shortcircuit ((NewReader [49]).AddError (some (.genErr "sorry")))
      (.genErr "sorry") rfl).2.2.2.2.2.2.2.2.2.2.2.2.2.2.2.2.2.2.1 0 rfl⟩

/-- C3, counterexample (input `9223372036854775808`, one above the int64
maximum): with `SetNumberRawRead(true)` in streaming mode, `Int64` still
runs the NumberProps conversion — it latches a range error and returns 0,
while the raw `strconv` path the claim promises would return the clamped
9223372036854775807 without latching.  Conversely after `PreProcess()`
(lazy-read, no computed-numbers buffer), `SetNumberRawRead(false)` does not
bring the NumberProps path back: `Int64` reparses the raw bytes and returns
the clamp with no error.  The flag set through `SetNumberRawRead` does not
determine the conversion path. -/
theorem c3_counterexample :
    let ds : List Byte :=
      [57, 50, 50, 51, 51, 55, 50, 48, 51, 54, 56, 53, 52, 55, 55, 53, 56, 48, 56]
    ((NewReader ds).SetNumberRawRead true).Int64.2 = 0 ∧
    ((NewReader ds).SetNumberRawRead true).Int64.1.err =
      some (.rngErr "value out of int64 range") ∧
    (goParseInt ds).1 = 9223372036854775807 ∧
    (((NewReader ds).PreProcess 20).SetNumberRawRead false).Int64.2 =
      9223372036854775807 ∧
    (((NewReader ds).PreProcess 20).SetNumberRawRead false).Int64.1.err = none := by
  refine ⟨?_, ?_, by norm_num [goParseInt, parseDecDigits, isDigitB], ?_, ?_⟩ <;>
    simp [NewReader, NewReaderWithBuffers, newTokenReader, TokenReader.Reset,
      Reader.PreProcess, Reader.preProcessF, Reader.SetNumberRawRead, Reader.Int64,
      Reader.IsNumbersRaw, TokenReader.Number, TokenReader.consumeScalar,
      Reader.Any, TokenReader.Any, TokenReader.next, TokenReader.skipWhitespaceAndReadByte,
      TokenReader.skipWsLoop, TokenReader.skipWsLoopF, goIsSpace, TokenReader.currentStruct,
      TokenReader.structNext, TokenReader.structHasNext,
      TokenReader.readNumber, scanNumber, numDigitsLoop, expDigitsLoop, finishNum, isDigitB,
      Reader.modifyTree, lowerB, TokenReader.readByte, TokenReader.unreadByte,
      NumberProps.toInt64, goParseInt, parseDecDigits]

/-- C4: `SyncWithPreProcess` restores the byte position from the end of
the FIRST descriptor (`(*Values)[0].End`), not the descriptor at the
current cursor.  On `[0,1]` pre-processed and iterated up to the second
element (cursor 2, a descriptor ending at byte 4), leaving lazy-read mode
sets `pos` to 5 — the end of the whole document — instead of 4.  The same
holds on a directly constructed lazy reader, independent of the modelled
iterators. -/
theorem c4_sync_divergence :
    (let r0 := (NewReader [91, 48, 44, 49, 93]).PreProcess 20
     let st := r0.Array
     let n1 := ArrayState.nextF 20 st.2 st.1
     let r := (n1.2.1.Int64).1
     r.tr.structPos = 2 ∧
     ((r.tr.structValues.getD []).getD 2 ({} : JsonTreeStruct)).End = 4 ∧
     r.SyncWithPreProcess.tr.pos = 5 ∧
     r.SyncWithPreProcess.tr.options.lazyRead = false) ∧
    (let rr : Reader := { tr := {
       data := [91, 48, 44, 49, 93]
       len := 5
       structValues := some [{ Start := 0, End := 5, SubTreeSize := 3 },
         { Start := 1, End := 2, SubTreeSize := 1 },
         { Start := 3, End := 4, SubTreeSize := 1 }]
       structPos := 2
       options := { lazyRead := true } } }
     rr.SyncWithPreProcess.tr.pos = 5 ∧
     ((rr.tr.structValues.getD []).getD rr.tr.structPos ({} : JsonTreeStruct)).End = 4) := by
  constructor <;>
    simp [NewReader, NewReaderWithBuffers, newTokenReader, TokenReader.Reset,
      Reader.PreProcess, Reader.preProcessF, Reader.Array, Reader.tryArray,
      Reader.SyncWithPreProcess, Reader.Int64, Reader.IsNumbersRaw,
      TokenReader.Number, TokenReader.consumeScalar,
      Reader.Any, TokenReader.Any, TokenReader.next, TokenReader.skipWhitespaceAndReadByte,
      TokenReader.skipWsLoop, TokenReader.skipWsLoopF, goIsSpace, TokenReader.currentStruct,
      TokenReader.structNext, TokenReader.structHasNext, TokenReader.skipSubTree,
      TokenReader.readNumber, scanNumber, numDigitsLoop, expDigitsLoop, finishNum, isDigitB,
      Reader.ppArrLoopF, Reader.ppObjLoopF, ArrayState.nextF, ObjectState.nextF,
      TokenReader.Delimiter, TokenReader.EndDelimiterOrComma, TokenReader.putBack,
      Reader.modifyTree, lowerB, TokenReader.readByte, TokenReader.unreadByte,
      badArrayOrObjectItemMessage, goParseInt, parseDecDigits]

/-- C5, counterexample: the form-feed byte 0x0C, which is not in the
claimed whitespace set {0x20, 0x09, 0x0A, 0x0D}, is skipped as whitespace
before a token (the reader lands on the `1` after it, recording the token
start at offset 1). -/
theorem c5_counterexample :
    ((newTokenReader [12, 49] (some []) (some []) none none).skipWhitespaceAndReadByte).2 =
      some 49 ∧
    ((newTokenReader [12, 49] (some []) (some []) none
      none).skipWhitespaceAndReadByte).1.lastPos = 1 ∧
    ¬(12 = 0x20 ∨ 12 = 0x09 ∨ 12 = 0x0A ∨ 12 = 0x0D) := by
  refine ⟨?_, ?_, by decide⟩ <;>
    simp [newTokenReader, TokenReader.Reset, TokenReader.skipWhitespaceAndReadByte,
      TokenReader.skipWsLoop, TokenReader.skipWsLoopF, goIsSpace]

/-- C5, amended: the bytes skipped as inter-token whitespace are exactly
those Go `unicode.IsSpace` accepts below 256 — 0x09, 0x0A, 0x0B, 0x0C,
0x0D, 0x20, 0x85 and 0xA0 (a byte is consumed as whitespace before the
following token if and only if it lies in that set). -/
theorem c5_whitespace_set (b : Byte) (hb : b < 256) :
    ((newTokenReader [b, 49] (some []) (some []) none
        none).skipWhitespaceAndReadByte).1.lastPos = 1 ↔
      b ∈ [0x09, 0x0A, 0x0B, 0x0C, 0x0D, 0x20, 0x85, 0xA0] := by
  simp only [newTokenReader, TokenReader.Reset, TokenReader.skipWhitespaceAndReadByte,
    TokenReader.skipWsLoop, TokenReader.skipWsLoopF, goIsSpace, List.mem_cons,
    List.not_mem_nil, or_false]
  constructor
  · intro h
    by_contra hset
    simp only [not_or] at hset
    obtain ⟨h1, h2, h3, h4, h5, h6, h7, h8⟩ := hset
    simp_all [List.getD]
  · intro h
    rcases h with h | h | h | h | h | h | h | h <;> subst h <;> simp [List.getD]

/-- Witness for C5's amended theorem at byte 0x0B (vertical tab, skipped)
— instantiating the equivalence concretely. -/
theorem c5_whitespace_witness :
    ((newTokenReader [11, 49] (some []) (some []) none
        none).skipWhitespaceAndReadByte).1.lastPos = 1 :=
  (c5_whitespace_set 11 (by decide)).2 (by decide)

/-- C6, counterexample: at end of input `EndDelimiterOrComma(']')` returns
Go `io.EOF`, not a bad-item syntax error; and on malformed input (`x`) it
returns that input's unexpected-symbol error, again not the bad-item
message. -/
theorem c6_counterexample :
    ((newTokenReader [] (some []) (some []) none none).EndDelimiterOrComma 93).2 =
      .error .eofErr ∧
    GoError.eofErr.isSyn = false ∧
    ((newTokenReader [120] (some []) (some []) none none).EndDelimiterOrComma 93).2 =
      .error (.synErr errMsgUnexpectedSymbol "x" 0) ∧
    errMsgUnexpectedSymbol ≠ errMsgBadArrayItem ∧
    errMsgUnexpectedSymbol ≠ errMsgBadObjectItem := by
  refine ⟨?_, rfl, ?_, by decide, by decide⟩ <;>
    simp [newTokenReader, TokenReader.Reset, TokenReader.EndDelimiterOrComma,
      TokenReader.skipWhitespaceAndReadByte, TokenReader.skipWsLoop, TokenReader.skipWsLoopF,
      goIsSpace, TokenReader.next, TokenReader.unreadByte, TokenReader.readByte,
      TokenReader.consumeLowerLoop, TokenReader.consumeLowerLoopF, bytesToString, charStr,
      Token.description, badArrayOrObjectItemMessage]

/-- C7, counterexample: in decode mode, the lone surrogate escape `\uD800`
is not emitted as that code point encoded UTF-8-style (bytes ED A0 80) —
Go `utf8.EncodeRune` replaces surrogates, so the decoded string is the
replacement character U+FFFD (bytes EF BF BD). -/
theorem c7_counterexample :
    (NewReaderWithBuffers [34, 92, 117, 68, 56, 48, 48, 34] (some []) (some []) none
      (some [])).String.2 = [239, 191, 189] ∧
    [239, 191, 189] ≠ [237, 160, 128] ∧
    utf8EncodeRune 0xFFFD = [239, 191, 189] := by
  refine ⟨?_, by decide, by decide⟩
  simp [NewReaderWithBuffers, newTokenReader, TokenReader.Reset, Reader.String,
    TokenReader.String, TokenReader.consumeScalar, TokenReader.next,
    TokenReader.skipWhitespaceAndReadByte, TokenReader.skipWsLoop, TokenReader.skipWsLoopF,
    goIsSpace, TokenReader.readString, decodeStrLoop, utf8DecodeRuneAt, readHexChar,
    hexDigitVal, appendRune, utf8EncodeRune, List.getD]

/-- C8, counterexample: when the input ends right after the key (no colon
follows), `PropertyName` returns Go `io.EOF`, not the expected-colon
syntax error the claim promises. -/
theorem c8_counterexample :
    ((newTokenReader [34, 97, 34] (some []) (some []) none none).PropertyName).2 =
      .error .eofErr ∧
    GoError.eofErr.isSyn = false := by
  refine ⟨?_, rfl⟩
  simp [newTokenReader, TokenReader.Reset, TokenReader.PropertyName,
    TokenReader.consumeScalar, TokenReader.next, TokenReader.skipWhitespaceAndReadByte,
    TokenReader.skipWsLoop, TokenReader.skipWsLoopF, goIsSpace, TokenReader.readString,
    scanStrLoop, utf8DecodeRuneAt, TokenReader.clearReadKey,
    TokenReader.syntaxErrorOnNextToken, List.getD]

/-- C1, counterexample: the one-call sequence `Int64()` fully consumes the
valid document `9223372036854775808` in both modes (RequireEOF succeeds in
both runs), yet the streaming run returns 0 with a latched range error
while the pre-process-then-lazy-read run returns 9223372036854775807 with
no error: lazy-read numeric conversions reparse the raw bytes with the
host parser and discard its error. -/
theorem c1_counterexample :
    let ds : List Byte :=
      [57, 50, 50, 51, 51, 55, 50, 48, 51, 54, 56, 53, 52, 55, 55, 53, 56, 48, 56]
    (NewReader ds).Int64.2 = 0 ∧
    (NewReader ds).Int64.1.err = some (.rngErr "value out of int64 range") ∧
    ((NewReader ds).PreProcess 20).Int64.2 = 9223372036854775807 ∧
    ((NewReader ds).PreProcess 20).Int64.1.err = none ∧
    (NewReader ds).Int64.1.RequireEOF.2 = none ∧
    ((NewReader ds).PreProcess 20).Int64.1.RequireEOF.2 = none := by
  refine ⟨?_, ?_, ?_, ?_, ?_, ?_⟩ <;>
    simp [NewReader, NewReaderWithBuffers, newTokenReader, TokenReader.Reset,
      Reader.PreProcess, Reader.preProcessF, Reader.Int64, Reader.IsNumbersRaw,
      Reader.RequireEOF, TokenReader.EOF, TokenReader.Number, TokenReader.consumeScalar,
      Reader.Any, TokenReader.Any, TokenReader.next, TokenReader.skipWhitespaceAndReadByte,
      TokenReader.skipWsLoop, TokenReader.skipWsLoopF, goIsSpace, TokenReader.currentStruct,
      TokenReader.structNext, TokenReader.structHasNext,
      TokenReader.readNumber, scanNumber, numDigitsLoop, expDigitsLoop, finishNum, isDigitB,
      Reader.modifyTree, lowerB, TokenReader.readByte, TokenReader.unreadByte,
      NumberProps.toInt64, goParseInt, parseDecDigits]

/-! Congruence of the reader pipeline under the `readRawNumbers` flag: no
function other than `SetNumberRawRead` (and `Reset`) ever consults it, so
rewriting the flag commutes with every operation on the number-read path. -/

theorem setRaw_readByte (b : GoBool) (tr : TokenReader) :
    (setRawOpt b tr).readByte = (setRawOpt b (tr.readByte).1, (tr.readByte).2) := by
  simp only [TokenReader.readByte, setRawOpt]
  split <;> rfl

theorem setRaw_unreadByte (b : GoBool) (tr : TokenReader) :
    (setRawOpt b tr).unreadByte = setRawOpt b tr.unreadByte := rfl

theorem setRaw_skipWsLoopF (b : GoBool) (fuel : Nat) (tr : TokenReader) :
    TokenReader.skipWsLoopF fuel (setRawOpt b tr) =
      (setRawOpt b (TokenReader.skipWsLoopF fuel tr).1,
       (TokenReader.skipWsLoopF fuel tr).2) := by
  induction fuel generalizing tr with
  | zero => rfl
  | succ n ih =>
    simp only [TokenReader.skipWsLoopF, setRawOpt]
    split
    · rfl
    · split
      · have := ih { tr with pos := tr.pos + 1 }
        simpa [setRawOpt] using this
      · rfl

theorem setRaw_skipWsLoop (b : GoBool) (tr : TokenReader) :
    (setRawOpt b tr).skipWsLoop =
      (setRawOpt b tr.skipWsLoop.1, tr.skipWsLoop.2) := by
  simp only [TokenReader.skipWsLoop]
  exact setRaw_skipWsLoopF b _ tr

theorem setRaw_currentStruct (b : GoBool) (tr : TokenReader) :
    (setRawOpt b tr).currentStruct = tr.currentStruct := rfl

theorem setRaw_skipWs (b : GoBool) (tr : TokenReader) :
    (setRawOpt b tr).skipWhitespaceAndReadByte =
      (setRawOpt b tr.skipWhitespaceAndReadByte.1, tr.skipWhitespaceAndReadByte.2) := by
  simp only [TokenReader.skipWhitespaceAndReadByte, setRaw_currentStruct]
  have hopt : (setRawOpt b tr).options.lazyRead = tr.options.lazyRead := rfl
  rw [hopt]
  split
  · split <;> rfl
  · exact setRaw_skipWsLoop b tr

theorem setRaw_structNext (b : GoBool) (tr : TokenReader) :
    (setRawOpt b tr).structNext =
      (setRawOpt b tr.structNext.1, tr.structNext.2) := by
  simp only [TokenReader.structNext, TokenReader.structHasNext, setRawOpt]
  split <;> rfl

theorem setRaw_consumeLowerLoopF (b : GoBool) (fuel : Nat) (tr : TokenReader) (n : Nat) :
    TokenReader.consumeLowerLoopF fuel (setRawOpt b tr) n =
      (setRawOpt b (TokenReader.consumeLowerLoopF fuel tr n).1,
       (TokenReader.consumeLowerLoopF fuel tr n).2) := by
  induction fuel generalizing tr n with
  | zero => rfl
  | succ m ih =>
    simp only [TokenReader.consumeLowerLoopF, setRawOpt]
    split
    · rfl
    · split
      · have := ih { tr with pos := tr.pos + 1 } (n + 1)
        simpa [setRawOpt] using this
      · rfl

theorem setRaw_consumeLowerLoop (b : GoBool) (tr : TokenReader) (n : Nat) :
    (setRawOpt b tr).consumeLowerLoop n =
      (setRawOpt b (tr.consumeLowerLoop n).1, (tr.consumeLowerLoop n).2) := by
  simp only [TokenReader.consumeLowerLoop]
  exact setRaw_consumeLowerLoopF b _ tr n

theorem setRaw_readNumber (b : GoBool) (tr : TokenReader) :
    (setRawOpt b tr).readNumber =
      (setRawOpt b tr.readNumber.1, tr.readNumber.2) := by
  simp only [TokenReader.readNumber, setRawOpt]
  split <;> rfl

theorem setRaw_readString (b : GoBool) (tr : TokenReader) :
    (setRawOpt b tr).readString =
      (setRawOpt b tr.readString.1, tr.readString.2) := by
  simp only [TokenReader.readString, setRawOpt]
  split
  · split
    · rfl
    · split <;> rfl
  · split
    · rfl
    · split <;> split <;> rfl

theorem setRaw_hasUnread (b : GoBool) (tr : TokenReader) :
    (setRawOpt b tr).hasUnread = tr.hasUnread := rfl
theorem setRaw_lazyRead (b : GoBool) (tr : TokenReader) :
    (setRawOpt b tr).options.lazyRead = tr.options.lazyRead := rfl
theorem setRaw_computeNumber (b : GoBool) (tr : TokenReader) :
    (setRawOpt b tr).options.computeNumber = tr.options.computeNumber := rfl
theorem setRaw_computeString (b : GoBool) (tr : TokenReader) :
    (setRawOpt b tr).options.computeString = tr.options.computeString := rfl
theorem setRaw_readKey (b : GoBool) (tr : TokenReader) :
    (setRawOpt b tr).options.readKey = tr.options.readKey := rfl
theorem setRaw_tokenBuffer (b : GoBool) (tr : TokenReader) :
    (setRawOpt b tr).tokenBuffer = tr.tokenBuffer := rfl
theorem setRaw_data (b : GoBool) (tr : TokenReader) :
    (setRawOpt b tr).data = tr.data := rfl
theorem setRaw_lastPos (b : GoBool) (tr : TokenReader) :
    (setRawOpt b tr).lastPos = tr.lastPos := rfl
theorem setRaw_numberValues (b : GoBool) (tr : TokenReader) :
    (setRawOpt b tr).numberValues = tr.numberValues := rfl
theorem setRaw_stringValues (b : GoBool) (tr : TokenReader) :
    (setRawOpt b tr).stringValues = tr.stringValues := rfl

theorem setRaw_next (b : GoBool) (tr : TokenReader) :
    (setRawOpt b tr).next = (setRawOpt b tr.next.1, tr.next.2) := by
  rw [TokenReader.next, TokenReader.next, setRaw_hasUnread]
  split
  · rfl
  · rw [setRaw_skipWs]
    rcases hws : tr.skipWhitespaceAndReadByte with ⟨tr1, ob⟩
    rcases ob with _ | bb
    · rfl
    · simp only [setRaw_structNext, setRaw_consumeLowerLoop, setRaw_readNumber,
        setRaw_readString, setRaw_currentStruct, setRaw_lazyRead, setRaw_computeNumber,
        setRaw_computeString, setRaw_readKey, setRaw_tokenBuffer, setRaw_data, setRaw_lastPos,
        setRaw_numberValues, setRaw_stringValues]
      rcases hns : tr1.structNext with ⟨trA, sbA⟩
      rcases hcl : tr1.consumeLowerLoop 0 with ⟨trB, nB⟩
      rcases hrn : tr1.readNumber with ⟨trC, propsC, okC⟩
      rcases hrs : tr1.readString with ⟨trD, resD⟩
      simp only [hns, hcl, hrn, hrs]
      rcases resD with eD | sD <;>
        repeat' (first | rfl | split)

theorem setRaw_consumeScalar (b : GoBool) (tr : TokenReader) (k : TokenKind) :
    (setRawOpt b tr).consumeScalar k =
      (setRawOpt b (tr.consumeScalar k).1, (tr.consumeScalar k).2) := by
  rw [TokenReader.consumeScalar, TokenReader.consumeScalar, setRaw_next]
  rcases hn : tr.next with ⟨tr1, res⟩
  rcases res with e | t
  · rfl
  · simp only
    have hl : (setRawOpt b tr1).LastPos = tr1.LastPos := rfl
    split <;> try rfl
    split <;> rfl

theorem setRaw_trNumber (b : GoBool) (tr : TokenReader) :
    (setRawOpt b tr).Number = (setRawOpt b tr.Number.1, tr.Number.2) := by
  rw [TokenReader.Number, TokenReader.Number, setRaw_consumeScalar]
  rcases hc : tr.consumeScalar .numberToken with ⟨tr1, res⟩
  rcases res with e | t <;> rfl

/-- C3, amended: `SetNumberRawRead` only records the `readRawNumbers` flag,
which no conversion consults — `Int64` and `UInt64` behave identically
with the flag set either way (same value, same latched error, same token
consumption), and the conversion path is instead selected by
`IsNumbersRaw() = lazyRead && !computeNumber`: the raw `strconv` reparse
runs exactly in lazy-read mode without a computed-numbers buffer. -/
theorem c3_raw_flag_inert (r : Reader) (b : GoBool) :
    (r.SetNumberRawRead b).Int64 =
      ((r.Int64.1).SetNumberRawRead b, r.Int64.2) ∧
    (r.SetNumberRawRead b).UInt64 =
      ((r.UInt64.1).SetNumberRawRead b, r.UInt64.2) ∧
    (r.SetNumberRawRead b).IsNumbersRaw = r.IsNumbersRaw ∧
    r.IsNumbersRaw = (r.tr.options.lazyRead && !r.tr.options.computeNumber) ∧
    (r.SetNumberRawRead b).tr.options.readRawNumbers = b ∧
    (r.SetNumberRawRead b).err = r.err ∧
    (r.SetNumberRawRead b).tr.pos = r.tr.pos ∧
    (r.SetNumberRawRead b).tr.structPos = r.tr.structPos := by
  have hset : ∀ r' : Reader, r'.SetNumberRawRead b = { r' with tr := setRawOpt b r'.tr } := by
    intro r'; rfl
  refine ⟨?_, ?_, rfl, rfl, rfl, rfl, rfl, rfl⟩
  · rw [Reader.Int64, Reader.Int64, hset]
    simp only
    rcases he : r.err with _ | e
    · have : ({ r with tr := setRawOpt b r.tr, awaitingReadValue := false } : Reader).tr =
        setRawOpt b r.tr := rfl
      simp only [he, setRaw_trNumber]
      rcases hn : r.tr.Number with ⟨tr1, res⟩
      rcases res with e | val
      · simp [he, hn, hset]
      · simp only [he, hn]
        have hraw :
            ({ tr := setRawOpt b tr1, awaitingReadValue := false, err := none } : Reader).IsNumbersRaw =
              ({ tr := tr1, awaitingReadValue := false, err := none } : Reader).IsNumbersRaw := rfl
        rw [hraw]
        split
        · simp [hset, setRawOpt]
        · split <;> simp [hset, setRawOpt]
    · simp [he, hset]
  · rw [Reader.UInt64, Reader.UInt64, hset]
    simp only
    rcases he : r.err with _ | e
    · simp only [he, setRaw_trNumber]
      rcases hn : r.tr.Number with ⟨tr1, res⟩
      rcases res with e | val
      · simp [he, hn, hset]
      · simp only [he, hn]
        have hraw :
            ({ tr := setRawOpt b tr1, awaitingReadValue := false, err := none } : Reader).IsNumbersRaw =
              ({ tr := tr1, awaitingReadValue := false, err := none } : Reader).IsNumbersRaw := rfl
        rw [hraw]
        split
        · simp [hset, setRawOpt]
        · split <;> simp [hset, setRawOpt]
    · simp [he, hset]

/-- Witness for C3's amended theorem at a concrete reader and flag. -/
theorem c3_raw_flag_witness :
    ((NewReader [49]).SetNumberRawRead true).Int64 =
      (((NewReader [49]).Int64.1).SetNumberRawRead true, (NewReader [49]).Int64.2) :=
  (c3_raw_flag_inert (NewReader [49]) true).1

/-- C6, amended: in streaming mode `EndDelimiterOrComma(closer)` consumes
the next byte when it is `,` or the closer and returns true exactly for
the closer; when the next token is any other valid token it returns the
array/object-specific bad-item syntax error naming that token; at end of
input it returns Go `io.EOF`; on malformed input it returns that input's
own error; with a pushed-back token the same outcomes apply to it; and in
lazy-read mode it always returns an error. -/
theorem c6_end_delimiter_spec :
    (∀ (tr : TokenReader) (d : Byte), tr.options.lazyRead = true →
      (tr.EndDelimiterOrComma d).2 =
        .error (.genErr ("can" ++ charStr 39 ++ "t be used in lazy mode"))) ∧
    (∀ (tr tr1 : TokenReader) (d : Byte), tr.options.lazyRead = false →
      tr.hasUnread = false →
      tr.skipWhitespaceAndReadByte = (tr1, none) →
      tr.EndDelimiterOrComma d = (tr1, .error .eofErr)) ∧
    (∀ (tr tr1 : TokenReader) (d b : Byte), tr.options.lazyRead = false →
      tr.hasUnread = false →
      tr.skipWhitespaceAndReadByte = (tr1, some b) → (b = d ∨ b = 44) →
      tr.EndDelimiterOrComma d = (tr1, .ok (decide (b = d)))) ∧
    (∀ (tr tr1 tr2 : TokenReader) (d b : Byte) (t : Token),
      tr.options.lazyRead = false → tr.hasUnread = false →
      tr.skipWhitespaceAndReadByte = (tr1, some b) → ¬(b = d ∨ b = 44) →
      tr1.unreadByte.next = (tr2, .ok t) →
      tr.EndDelimiterOrComma d =
        (tr2, .error (.synErr (badArrayOrObjectItemMessage (decide (d = 125)))
          t.description tr2.lastPos))) ∧
    (∀ (tr tr1 tr2 : TokenReader) (d b : Byte) (e : GoError),
      tr.options.lazyRead = false → tr.hasUnread = false →
      tr.skipWhitespaceAndReadByte = (tr1, some b) → ¬(b = d ∨ b = 44) →
      tr1.unreadByte.next = (tr2, .error e) →
      tr.EndDelimiterOrComma d = (tr2, .error e)) ∧
    (∀ (tr : TokenReader) (d : Byte), tr.options.lazyRead = false →
      tr.hasUnread = true → tr.unreadToken.kind = .delimiterToken →
      (tr.unreadToken.delimiter = d ∨ tr.unreadToken.delimiter = 44) →
      tr.EndDelimiterOrComma d =
        ({ tr with hasUnread := false }, .ok (decide (tr.unreadToken.delimiter = d)))) ∧
    (∀ (tr : TokenReader) (d : Byte), tr.options.lazyRead = false →
      tr.hasUnread = true →
      ¬(tr.unreadToken.kind = .delimiterToken ∧
        (tr.unreadToken.delimiter = d ∨ tr.unreadToken.delimiter = 44)) →
      tr.EndDelimiterOrComma d =
        (tr, .error (.synErr (badArrayOrObjectItemMessage (decide (d = 125)))
          tr.unreadToken.description tr.lastPos))) := by
  refine ⟨?_, ?_, ?_, ?_, ?_, ?_, ?_⟩
  · intro tr d hl
    simp [TokenReader.EndDelimiterOrComma, hl]
  · intro tr tr1 d hl hu hws
    simp [TokenReader.EndDelimiterOrComma, hl, hu, hws]
  · intro tr tr1 d b hl hu hws hbd
    simp [TokenReader.EndDelimiterOrComma, hl, hu, hws, hbd]
  · intro tr tr1 tr2 d b t hl hu hws hbd hn
    simp [TokenReader.EndDelimiterOrComma, hl, hu, hws, hbd, hn]
  · intro tr tr1 tr2 d b e hl hu hws hbd hn
    simp [TokenReader.EndDelimiterOrComma, hl, hu, hws, hbd, hn]
  · intro tr d hl hu hk hd
    simp [TokenReader.EndDelimiterOrComma, hl, hu, hk, hd]
  · intro tr d hl hu hmix
    rw [TokenReader.EndDelimiterOrComma]
    simp only [hl, hu, if_true, if_false, Bool.false_eq_true, ite_false]
    rw [if_neg hmix]

/-- Witness for C6's amended theorem: the end-of-input conjunct at a
concrete empty input. -/
theorem c6_witness :
    (newTokenReader [] (some []) (some []) none none).EndDelimiterOrComma 93 =
      (newTokenReader [] (some []) (some []) none none, .error .eofErr) :=
  c6_end_delimiter_spec.2.1 (newTokenReader [] (some []) (some []) none none)
    (newTokenReader [] (some []) (some []) none none) 93 rfl rfl rfl

/-! Positional facts about the input list, used throughout the streaming
lemmas. -/

theorem dropAt {data : List Byte} {j : Nat} {c : Byte} {rest : List Byte}
    (h : data.drop j = c :: rest) :
    j < data.length ∧ data.getD j 0 = c ∧ data.drop (j + 1) = rest := by
  have hj : j < data.length := by
    by_contra hge
    rw [List.drop_eq_nil_of_le (by omega)] at h
    exact List.noConfusion h
  refine ⟨hj, ?_, ?_⟩
  · have h0 : data[j]? = some c := by
      have := List.getElem?_drop data j 0
      rw [h] at this
      simpa using this.symm
    simp [List.getD_eq_getElem?_getD, h0]
  · have h2 := List.drop_drop 1 j data
    rw [h] at h2
    simp only [List.drop_succ_cons, List.drop_zero] at h2
    exact h2.symm

theorem dropLen {data : List Byte} {j : Nat} {suffix : List Byte}
    (h : data.drop j = suffix) : suffix.length + j = data.length ∨ data.length ≤ j := by
  rcases Nat.lt_or_ge j data.length with hlt | hge
  · left
    have := List.length_drop j data
    rw [h] at this
    omega
  · right; exact hge

theorem utf8_ascii {data : List Byte} {j : Nat} {c : Byte} {rest : List Byte}
    (h : data.drop j = c :: rest) (hc : c < 0x80) :
    utf8DecodeRuneAt data j = some (c, 1) := by
  obtain ⟨hj, hg, _⟩ := dropAt h
  rw [utf8DecodeRuneAt, if_neg (by omega)]
  simp only [hg]
  rw [if_pos hc]

/-- The scan-only string loop consumes an ASCII content satisfying
`scanContentOk` and stops right past the closing quote. -/
theorem scanStrLoop_plain (data : List Byte) (content : List Byte) :
    ∀ (j : Nat) (esc : Bool) (fuel : Nat) (rest : List Byte),
    scanContentOk content esc = true →
    data.drop j = content ++ 34 :: rest →
    content.length + 1 ≤ fuel →
    scanStrLoop data fuel j esc = some (j + (content.length + 1)) := by
  induction content with
  | nil =>
    intro j esc fuel rest hok hdrop hfuel
    rcases fuel with _ | f
    · omega
    simp only [scanContentOk, Bool.not_eq_true'] at hok
    have hd : utf8DecodeRuneAt data j = some (34, 1) :=
      utf8_ascii (by simpa using hdrop) (by decide)
    rw [scanStrLoop, hd]
    dsimp only
    simp [hok]
  | cons c tl ih =>
    intro j esc fuel rest hok hdrop hfuel
    rcases fuel with _ | f
    · simp at hfuel
    simp only [List.cons_append] at hdrop
    rw [scanContentOk] at hok
    by_cases hc92 : c = 92
    · subst hc92
      rw [if_pos rfl] at hok
      have hd : utf8DecodeRuneAt data j = some (92, 1) := utf8_ascii hdrop (by decide)
      rw [scanStrLoop, hd]
      dsimp only
      rw [if_pos (Eq.refl (92 : Byte))]
      have := ih (j + 1) (!esc) f rest hok (dropAt hdrop).2.2
        (by simp only [List.length_cons] at hfuel; omega)
      rw [this]
      simp only [List.length_cons, Option.some.injEq]
      omega
    · rw [if_neg hc92] at hok
      by_cases h34 : c = 34 ∧ esc = false
      · rw [if_pos h34] at hok
        exact absurd hok (by simp)
      · rw [if_neg h34] at hok
        have hca : c < 0x80 ∧ scanContentOk tl false = true := by
          rcases Bool.and_eq_true _ _ |>.mp hok with ⟨h1, h2⟩
          exact ⟨by simpa using h1, h2⟩
        have hd : utf8DecodeRuneAt data j = some (c, 1) := utf8_ascii hdrop hca.1
        rw [scanStrLoop, hd]
        dsimp only
        rw [if_neg hc92, if_neg h34]
        have := ih (j + 1) false f rest hca.2 (dropAt hdrop).2.2
          (by simp only [List.length_cons] at hfuel; omega)
        rw [this]
        simp only [List.length_cons, Option.some.injEq]
        omega


/-- Scan-only `readString` (property names, or string computation off)
returns exactly the raw bytes between the quotes and leaves the reader
right past the closing quote. -/
theorem readString_scan (tr : TokenReader) (content rest : List Byte)
    (hmode : tr.options.readKey = true ∨ tr.options.computeString = false)
    (hok : scanContentOk content false = true)
    (hdrop : tr.data.drop tr.pos = content ++ 34 :: rest)
    (hlen : tr.len = tr.data.length) :
    tr.readString = ({ tr with pos := tr.pos + (content.length + 1) }, .ok content) := by
  have hfuel : content.length + 1 ≤ tr.data.length + 1 := by
    rcases dropLen hdrop with h | h
    · simp only [List.length_append, List.length_cons] at h
      omega
    · exfalso
      rw [List.drop_eq_nil_of_le h] at hdrop
      exact absurd hdrop.symm (by simp)
  have hscan := scanStrLoop_plain tr.data content tr.pos false (tr.data.length + 1) rest
    hok hdrop hfuel
  rw [TokenReader.readString]
  have hmode' : (tr.options.readKey || !tr.options.computeString) = true := by
    rcases hmode with h | h <;> simp [h]
  rw [if_pos hmode', hscan]
  dsimp only
  by_cases hnil : content = []
  · subst hnil
    simp
  · have hpos : ¬(tr.pos + (content.length + 1) - 1 ≤ tr.pos) := by
      have := List.length_pos.mpr hnil
      omega
    rw [if_neg hpos]
    have harith : tr.pos + (content.length + 1) - 1 - tr.pos = content.length := by omega
    rw [harith, hdrop]
    rw [show (34 : Byte) :: rest = [34] ++ rest from rfl, ← List.append_assoc]
    rw [List.take_append_of_le_length (by simp)]
    rw [List.take_append_of_le_length (by simp), List.take_length]

/-- The lowercase-run consumer advances over a lowercase-letter run that is
followed by a non-lowercase byte (or end of input), counting its length. -/
theorem consumeLower_run (tr : TokenReader) (run : List Byte) (n : Nat)
    (hrun : run.all (fun c => 97 ≤ c && c ≤ 122) = true)
    (hdrop : tr.data.drop tr.pos = run ++ (tr.data.drop (tr.pos + run.length)))
    (hstop : ∀ c rest2, tr.data.drop (tr.pos + run.length) = c :: rest2 → ¬(97 ≤ c ∧ c ≤ 122))
    (hlen : tr.len = tr.data.length) (hpos : tr.pos ≤ tr.len) :
    tr.consumeLowerLoop n = ({ tr with pos := tr.pos + run.length }, n + run.length) := by
  rw [TokenReader.consumeLowerLoop]
  suffices h : ∀ (fuel : Nat) (tr' : TokenReader) (run : List Byte) (n : Nat),
      tr'.len = tr'.data.length →
      run.all (fun c => 97 ≤ c && c ≤ 122) = true →
      tr'.data.drop tr'.pos = run ++ (tr'.data.drop (tr'.pos + run.length)) →
      (∀ c rest2, tr'.data.drop (tr'.pos + run.length) = c :: rest2 → ¬(97 ≤ c ∧ c ≤ 122)) →
      run.length + 1 ≤ fuel →
      TokenReader.consumeLowerLoopF fuel tr' n =
        ({ tr' with pos := tr'.pos + run.length }, n + run.length) by
    apply h
    · exact hlen
    · exact hrun
    · exact hdrop
    · exact hstop
    · -- fuel = tr.len + 1 - tr.pos ≥ run.length + 1
      rcases dropLen hdrop with hl | hl
      · have := List.length_drop (tr.pos + run.length) tr.data
        simp only [List.length_append] at hl
        omega
      · rw [List.drop_eq_nil_of_le hl] at hdrop
        rcases run with _ | ⟨c, tlr⟩
        · simp only [List.length_nil]
          omega
        · exact absurd hdrop.symm (by simp)
  intro fuel
  induction fuel with
  | zero => intro tr' run n _ _ _ _ hf; omega
  | succ f ih =>
    intro tr' run n hld hall hdr hstp hf
    rcases run with _ | ⟨c, tlr⟩
    · simp only [List.length_nil, Nat.add_zero] at hdr hstp ⊢
      rw [TokenReader.consumeLowerLoopF]
      rcases hend : tr'.data.drop tr'.pos with _ | ⟨c0, r0⟩
      · have : tr'.pos ≥ tr'.len := by
          rcases dropLen hend with h1 | h1
          · simp only [List.length_nil, Nat.zero_add] at h1; omega
          · omega
        rw [if_pos this]
      · obtain ⟨hlt, hget, _⟩ := dropAt hend
        have hnl : ¬(97 ≤ c0 ∧ c0 ≤ 122) := hstp c0 r0 hend
        rw [if_neg (by omega)]
        simp only [hget]
        rw [if_neg hnl]
    · simp only [List.cons_append] at hdr
      obtain ⟨hlt, hget, hdr2⟩ := dropAt hdr
      have hc : 97 ≤ c ∧ c ≤ 122 := by
        simp only [List.all_cons, Bool.and_eq_true, decide_eq_true_eq] at hall
        obtain ⟨⟨h1, h2⟩, _⟩ := hall
        exact ⟨h1, h2⟩
      rw [TokenReader.consumeLowerLoopF, if_neg (by omega)]
      simp only [hget]
      rw [if_pos hc]
      have harr : tr'.data.drop (tr'.pos + 1) =
          tlr ++ tr'.data.drop (tr'.pos + 1 + tlr.length) := by
        rw [hdr2]
        congr 1
        congr 1
        simp only [List.length_cons]
        omega
      have := ih { tr' with pos := tr'.pos + 1 } tlr (n + 1) hld
        (by simp only [List.all_cons, Bool.and_eq_true] at hall; exact hall.2)
        (by simpa using harr)
        (by
          intro c2 rest2 hx
          apply hstp c2 rest2
          simp only [List.length_cons]
          rw [show tr'.pos + (tlr.length + 1) = tr'.pos + 1 + tlr.length by omega]
          simpa using hx)
        (by simp only [List.length_cons] at hf; omega)
      rw [this]
      simp only [List.length_cons]
      have e1 : tr'.pos + 1 + tlr.length = tr'.pos + (tlr.length + 1) := by omega
      have e2 : n + 1 + tlr.length = n + (tlr.length + 1) := by omega
      rw [e1, e2]

theorem dropAfter {data : List Byte} {j : Nat} {pre suf : List Byte}
    (h : data.drop j = pre ++ suf) : data.drop (j + pre.length) = suf := by
  induction pre generalizing j with
  | nil => simpa using h
  | cons c tl ih =>
    simp only [List.cons_append] at h
    have h2 := (dropAt h).2.2
    have := ih h2
    rw [show j + (c :: tl).length = j + 1 + tl.length by simp only [List.length_cons]; omega]
    exact this

/-- The whitespace-skipping byte read: skips a run of Go whitespace, reads
the first non-space byte, records its position in `lastPos`. -/
theorem skipWsLoop_run (tr : TokenReader) (ws : List Byte) (b : Byte) (rest : List Byte)
    (hws : ws.all goIsSpace = true) (hb : goIsSpace b = false)
    (hdrop : tr.data.drop tr.pos = ws ++ b :: rest)
    (hlen : tr.len = tr.data.length) :
    tr.skipWsLoop =
      ({ tr with pos := tr.pos + ws.length + 1, lastPos := tr.pos + ws.length }, some b) := by
  rw [TokenReader.skipWsLoop]
  suffices h : ∀ (fuel : Nat) (tr' : TokenReader) (ws : List Byte),
      tr'.len = tr'.data.length →
      ws.all goIsSpace = true →
      tr'.data.drop tr'.pos = ws ++ b :: rest →
      ws.length + 1 ≤ fuel →
      TokenReader.skipWsLoopF fuel tr' =
        ({ tr' with pos := tr'.pos + ws.length + 1, lastPos := tr'.pos + ws.length }, some b) by
    apply h
    · exact hlen
    · exact hws
    · exact hdrop
    · rcases dropLen hdrop with hl | hl
      · simp only [List.length_append, List.length_cons] at hl
        omega
      · rw [List.drop_eq_nil_of_le hl] at hdrop
        exact absurd hdrop.symm (by simp)
  intro fuel
  induction fuel with
  | zero => intro tr' ws _ _ _ hf; omega
  | succ f ih =>
    intro tr' ws hld hall hdr hf
    rcases ws with _ | ⟨c, tlw⟩
    · simp only [List.nil_append] at hdr
      obtain ⟨hlt, hget, _⟩ := dropAt hdr
      rw [TokenReader.skipWsLoopF, if_neg (by omega)]
      simp only [hget, hb]
      simp
    · simp only [List.cons_append] at hdr
      obtain ⟨hlt, hget, hdr2⟩ := dropAt hdr
      have hcs : goIsSpace c = true := by
        simp only [List.all_cons, Bool.and_eq_true] at hall
        exact hall.1
      rw [TokenReader.skipWsLoopF, if_neg (by omega)]
      simp only [hget, hcs]
      rw [if_pos True.intro]
      have := ih { tr' with pos := tr'.pos + 1 } tlw hld
        (by simp only [List.all_cons, Bool.and_eq_true] at hall; exact hall.2)
        (by simpa using hdr2)
        (by simp only [List.length_cons] at hf; omega)
      rw [this]
      simp only [List.length_cons]
      have e1 : tr'.pos + 1 + tlw.length + 1 = tr'.pos + (tlw.length + 1) + 1 := by omega
      have e2 : tr'.pos + 1 + tlw.length = tr'.pos + (tlw.length + 1) := by omega
      rw [e1, e2]

/-- The whitespace-skipping byte read at end of input: only whitespace
remains, so the read reports end of input after consuming it. -/
theorem skipWsLoop_eof (tr : TokenReader) (ws : List Byte)
    (hws : ws.all goIsSpace = true)
    (hdrop : tr.data.drop tr.pos = ws)
    (hlen : tr.len = tr.data.length) (hpos : tr.pos ≤ tr.len) :
    tr.skipWsLoop = ({ tr with pos := tr.pos + ws.length }, none) := by
  rw [TokenReader.skipWsLoop]
  suffices h : ∀ (fuel : Nat) (tr' : TokenReader) (ws : List Byte),
      tr'.len = tr'.data.length →
      ws.all goIsSpace = true →
      tr'.data.drop tr'.pos = ws →
      ws.length + 1 ≤ fuel →
      TokenReader.skipWsLoopF fuel tr' =
        ({ tr' with pos := tr'.pos + ws.length }, none) by
    apply h
    · exact hlen
    · exact hws
    · exact hdrop
    · rcases dropLen hdrop with hl | hl
      · omega
      · rw [List.drop_eq_nil_of_le hl] at hdrop
        rw [← hdrop]
        simp only [List.length_nil]
        omega
  intro fuel
  induction fuel with
  | zero => intro tr' ws _ _ _ hf; omega
  | succ f ih =>
    intro tr' ws hld hall hdr hf
    rcases ws with _ | ⟨c, tlw⟩
    · have hge : tr'.pos ≥ tr'.len := by
        rcases dropLen hdr with h1 | h1
        · simp only [List.length_nil, Nat.zero_add] at h1; omega
        · omega
      rw [TokenReader.skipWsLoopF, if_pos hge]
      simp
    · obtain ⟨hlt, hget, hdr2⟩ := dropAt hdr
      have hcs : goIsSpace c = true := by
        simp only [List.all_cons, Bool.and_eq_true] at hall
        exact hall.1
      rw [TokenReader.skipWsLoopF, if_neg (by omega)]
      simp only [hget, hcs]
      rw [if_pos True.intro]
      have := ih { tr' with pos := tr'.pos + 1 } tlw hld
        (by simp only [List.all_cons, Bool.and_eq_true] at hall; exact hall.2)
        (by simpa using hdr2)
        (by simp only [List.length_cons] at hf; omega)
      rw [this]
      simp only [List.length_cons]
      have e1 : tr'.pos + 1 + tlw.length = tr'.pos + (tlw.length + 1) := by omega
      rw [e1]

/-- Streaming-mode `next` at a string token whose scan-only path applies
(property-name read, or string computation off): the token carries the raw
content bytes and the reader stops just past the closing quote. -/
theorem next_string_scan (tr : TokenReader) (ws content rest : List Byte)
    (hlazy : tr.options.lazyRead = false) (hun : tr.hasUnread = false)
    (hmode : tr.options.readKey = true ∨ tr.options.computeString = false)
    (hws : ws.all goIsSpace = true)
    (hok : scanContentOk content false = true)
    (hdrop : tr.data.drop tr.pos = ws ++ 34 :: (content ++ 34 :: rest))
    (hlen : tr.len = tr.data.length) :
    tr.next =
      ({ tr with pos := tr.pos + ws.length + 1 + (content.length + 1)
                 lastPos := tr.pos + ws.length
                 tokenBuffer := { tr.tokenBuffer with kind := .stringToken
                                                      stringValue := content } },
        .ok { tr.tokenBuffer with kind := .stringToken, stringValue := content }) := by
  have h1 : tr.data.drop (tr.pos + ws.length) = 34 :: (content ++ 34 :: rest) :=
    dropAfter hdrop
  have h2 : tr.data.drop (tr.pos + ws.length + 1) = content ++ 34 :: rest :=
    (dropAt h1).2.2
  rw [TokenReader.next]
  rw [if_neg (by rw [hun]; exact Bool.false_ne_true)]
  rw [TokenReader.skipWhitespaceAndReadByte]
  rw [if_neg (by rw [hlazy]; exact Bool.false_ne_true)]
  have hskip := skipWsLoop_run tr ws 34 (content ++ 34 :: rest) hws (by decide) hdrop hlen
  rw [hskip]
  dsimp only
  rw [if_neg (by decide), if_neg (by decide), if_pos rfl]
  rw [if_neg (by rw [hlazy]; exact Bool.false_ne_true)]
  have hrs := readString_scan
    { tr with pos := tr.pos + ws.length + 1, lastPos := tr.pos + ws.length }
    content rest (by exact hmode) hok (by exact h2) (by exact hlen)
  rw [hrs]

/-- C8, amended: in streaming mode `PropertyName` returns the raw key
bytes exactly as they appear between the quotes (escapes unresolved) even
when string decoding is enabled; a following colon accepts the key; a
following non-space byte other than a colon re-reads the next token and
yields the expected-colon syntax error on a valid token (or that token's
own error on a malformed one); but when only whitespace follows the key,
the result is the bare end-of-input error, not the expected-colon error. -/
theorem c8_property_name_spec (tr : TokenReader) (ws content : List Byte)
    (hlazy : tr.options.lazyRead = false) (hun : tr.hasUnread = false)
    (hlen : tr.len = tr.data.length)
    (hws : ws.all goIsSpace = true)
    (hok : scanContentOk content false = true) :
    (∀ ws2 rest2,
      tr.data.drop tr.pos = ws ++ 34 :: (content ++ 34 :: (ws2 ++ 58 :: rest2)) →
      ws2.all goIsSpace = true →
      tr.PropertyName =
        ({ tr with pos := tr.pos + ws.length + 1 + (content.length + 1) + ws2.length + 1
                   lastPos := tr.pos + ws.length + 1 + (content.length + 1) + ws2.length
                   tokenBuffer := { tr.tokenBuffer with kind := .stringToken
                                                        stringValue := content }
                   options := { tr.options with readKey := false } },
          .ok content)) ∧
    (∀ ws2,
      tr.data.drop tr.pos = ws ++ 34 :: (content ++ 34 :: ws2) →
      ws2.all goIsSpace = true →
      tr.PropertyName =
        ({ tr with pos := tr.pos + ws.length + 1 + (content.length + 1) + ws2.length
                   lastPos := tr.pos + ws.length
                   tokenBuffer := { tr.tokenBuffer with kind := .stringToken
                                                        stringValue := content }
                   options := { tr.options with readKey := false } },
          .error .eofErr)) ∧
    (∀ ws2 b rest2 r3 res,
      tr.data.drop tr.pos = ws ++ 34 :: (content ++ 34 :: (ws2 ++ b :: rest2)) →
      ws2.all goIsSpace = true → goIsSpace b = false → b ≠ 58 →
      TokenReader.next
        { tr with pos := tr.pos + ws.length + 1 + (content.length + 1) + ws2.length + 1 - 1
                  lastPos := tr.pos + ws.length + 1 + (content.length + 1) + ws2.length
                  tokenBuffer := { tr.tokenBuffer with kind := .stringToken
                                                       stringValue := content }
                  options := { tr.options with readKey := true } } = (r3, res) →
      tr.PropertyName =
        (r3.clearReadKey, .error (match res with
          | .error e => e
          | .ok t => .synErr errMsgExpectedColon t.description r3.LastPos))) := by
  have hcs : ∀ (R : List Byte),
      tr.data.drop tr.pos = ws ++ 34 :: (content ++ 34 :: R) →
      TokenReader.consumeScalar
          { tr with options := { tr.options with readKey := true } } .stringToken =
        ({ tr with pos := tr.pos + ws.length + 1 + (content.length + 1)
                   lastPos := tr.pos + ws.length
                   tokenBuffer := { tr.tokenBuffer with kind := .stringToken
                                                        stringValue := content }
                   options := { tr.options with readKey := true } },
          .ok { tr.tokenBuffer with kind := .stringToken, stringValue := content }) := by
    intro R hdr
    rw [TokenReader.consumeScalar]
    have hnext := next_string_scan
      { tr with options := { tr.options with readKey := true } } ws content R
      (by exact hlazy) (by exact hun) (Or.inl rfl) hws hok (by exact hdr) (by exact hlen)
    rw [hnext]
    dsimp only
    rw [if_pos rfl]
  refine ⟨?_, ?_, ?_⟩
  · intro ws2 rest2 hdr hws2
    have hc := hcs (ws2 ++ 58 :: rest2) hdr
    rw [TokenReader.PropertyName]
    dsimp only
    rw [hc]
    dsimp only
    rw [TokenReader.skipWhitespaceAndReadByte]
    rw [if_neg (by rw [hlazy]; exact Bool.false_ne_true)]
    have h1 := dropAfter hdr
    have h2 := (dropAt h1).2.2
    have h3 := dropAfter h2
    have h4 := (dropAt h3).2.2
    have h5 : tr.data.drop (tr.pos + ws.length + 1 + (content.length + 1)) =
        ws2 ++ 58 :: rest2 := by
      rw [show tr.pos + ws.length + 1 + (content.length + 1) =
        tr.pos + ws.length + 1 + content.length + 1 by omega]
      exact h4
    have hskip := skipWsLoop_run
      { tr with pos := tr.pos + ws.length + 1 + (content.length + 1)
                lastPos := tr.pos + ws.length
                tokenBuffer := { tr.tokenBuffer with kind := .stringToken
                                                     stringValue := content }
                options := { tr.options with readKey := true } }
      ws2 58 rest2 hws2 (by decide) (by exact h5) (by exact hlen)
    rw [hskip]
    dsimp only
    rw [if_pos rfl]
    rfl
  · intro ws2 hdr hws2
    have hc := hcs ws2 hdr
    rw [TokenReader.PropertyName]
    dsimp only
    rw [hc]
    dsimp only
    rw [TokenReader.skipWhitespaceAndReadByte]
    rw [if_neg (by rw [hlazy]; exact Bool.false_ne_true)]
    have h1 := dropAfter hdr
    have h2 := (dropAt h1).2.2
    have h3 := dropAfter h2
    have h4 := (dropAt h3).2.2
    have h5 : tr.data.drop (tr.pos + ws.length + 1 + (content.length + 1)) = ws2 := by
      rw [show tr.pos + ws.length + 1 + (content.length + 1) =
        tr.pos + ws.length + 1 + content.length + 1 by omega]
      exact h4
    have hpos : tr.pos + ws.length + 1 + (content.length + 1) ≤ tr.len := by
      rcases dropLen h3 with h | h
      · simp only [List.length_cons] at h
        omega
      · rw [List.drop_eq_nil_of_le h] at h3
        exact absurd h3.symm (by simp)
    have hskip := skipWsLoop_eof
      { tr with pos := tr.pos + ws.length + 1 + (content.length + 1)
                lastPos := tr.pos + ws.length
                tokenBuffer := { tr.tokenBuffer with kind := .stringToken
                                                     stringValue := content }
                options := { tr.options with readKey := true } }
      ws2 hws2 (by exact h5) (by exact hlen) (by exact hpos)
    rw [hskip]
    rfl
  · intro ws2 b rest2 r3 res hdr hws2 hbs hb58 hnx
    have hc := hcs (ws2 ++ b :: rest2) hdr
    rw [TokenReader.PropertyName]
    dsimp only
    rw [hc]
    dsimp only
    rw [TokenReader.skipWhitespaceAndReadByte]
    rw [if_neg (by rw [hlazy]; exact Bool.false_ne_true)]
    have h1 := dropAfter hdr
    have h2 := (dropAt h1).2.2
    have h3 := dropAfter h2
    have h4 := (dropAt h3).2.2
    have h5 : tr.data.drop (tr.pos + ws.length + 1 + (content.length + 1)) =
        ws2 ++ b :: rest2 := by
      rw [show tr.pos + ws.length + 1 + (content.length + 1) =
        tr.pos + ws.length + 1 + content.length + 1 by omega]
      exact h4
    have hskip := skipWsLoop_run
      { tr with pos := tr.pos + ws.length + 1 + (content.length + 1)
                lastPos := tr.pos + ws.length
                tokenBuffer := { tr.tokenBuffer with kind := .stringToken
                                                     stringValue := content }
                options := { tr.options with readKey := true } }
      ws2 b rest2 hws2 hbs (by exact h5) (by exact hlen)
    rw [hskip]
    dsimp only
    rw [if_neg hb58]
    rw [TokenReader.syntaxErrorOnNextToken]
    dsimp only [TokenReader.unreadByte]
    rw [hnx]
    rcases res with e | t
    · rfl
    · rfl

/-- Go UTF-8 decode/encode roundtrip on valid scalar sequences. -/
theorem utf8_valid_seq {data : List Nat} {j : Nat} {s rest : List Nat}
    (h : data.drop j = s ++ rest) (hv : validScalarSeq s = true) :
    ∃ ch, utf8DecodeRuneAt data j = some (ch, s.length) ∧ utf8EncodeRune ch = s := by
  rcases s with _ | ⟨b0, s⟩
  · exact absurd hv (by simp [validScalarSeq])
  rcases s with _ | ⟨b1, s⟩
  · -- one byte
    simp only [validScalarSeq, decide_eq_true_eq] at hv
    simp only [List.cons_append, List.nil_append] at h
    obtain ⟨hj, hg0, _⟩ := dropAt h
    have hv' : b0 < (0x80 : Nat) := hv
    have hA : ¬(j ≥ data.length) := by omega
    have hE : b0 ≤ 0x7F := by omega
    refine ⟨b0, ?_, ?_⟩
    · rw [utf8DecodeRuneAt, if_neg hA]
      dsimp only
      simp only [hg0]
      rw [if_pos hv']
      rfl
    · rw [utf8EncodeRune, if_pos hE]
  rcases s with _ | ⟨b2, s⟩
  · -- two bytes
    simp only [validScalarSeq, Bool.and_eq_true, decide_eq_true_eq] at hv
    obtain ⟨⟨⟨h0a, h0b⟩, h1a⟩, h1b⟩ := hv
    simp only [List.cons_append, List.nil_append] at h
    obtain ⟨hj, hg0, h'⟩ := dropAt h
    obtain ⟨hj1, hg1, _⟩ := dropAt h'
    have h0a' : (0xC2 : Nat) ≤ b0 := h0a
    have h0b' : b0 ≤ (0xDF : Nat) := h0b
    have h1a' : (0x80 : Nat) ≤ b1 := h1a
    have h1b' : b1 ≤ (0xBF : Nat) := h1b
    have hA : ¬(j ≥ data.length) := by omega
    have hB : ¬(b0 < 0x80) := by omega
    have hC : ¬(b0 < 0xC2) := by omega
    have hD : b0 ≤ 0xDF := by omega
    have hL : j + 1 < data.length := hj1
    have hG : 0x80 ≤ b1 ∧ b1 ≤ 0xBF := ⟨h1a', h1b'⟩
    have hE1 : ¬((b0 % 32) * 64 + b1 % 64 ≤ 0x7F) := by omega
    have hE2 : (b0 % 32) * 64 + b1 % 64 ≤ 0x7FF := by omega
    have e0 : 0xC0 + ((b0 % 32) * 64 + b1 % 64) / 64 = b0 := by omega
    have e1 : 0x80 + ((b0 % 32) * 64 + b1 % 64) % 64 = b1 := by omega
    refine ⟨(b0 % 32) * 64 + b1 % 64, ?_, ?_⟩
    · rw [utf8DecodeRuneAt, if_neg hA]
      dsimp only
      simp only [hg0, hg1]
      rw [if_neg hB, if_neg hC, if_pos hD, if_pos hL, if_pos hG]
      rfl
    · rw [utf8EncodeRune, if_neg hE1, if_pos hE2, e0, e1]
  rcases s with _ | ⟨b3, s⟩
  · -- three bytes
    simp only [validScalarSeq, Bool.and_eq_true, decide_eq_true_eq] at hv
    obtain ⟨⟨⟨⟨⟨h0a, h0b⟩, h1a⟩, h1b⟩, h2a⟩, h2b⟩ := hv
    simp only [List.cons_append, List.nil_append] at h
    obtain ⟨hj, hg0, h'⟩ := dropAt h
    obtain ⟨hj1, hg1, h''⟩ := dropAt h'
    obtain ⟨hj2, hg2, _⟩ := dropAt h''
    have h0a' : (0xE0 : Nat) ≤ b0 := h0a
    have h0b' : b0 ≤ (0xEF : Nat) := h0b
    have h1a' : (if b0 = 0xE0 then (0xA0 : Nat) else 0x80) ≤ b1 := h1a
    have h1b' : b1 ≤ (if b0 = 0xED then (0x9F : Nat) else 0xBF) := h1b
    have h2a' : (0x80 : Nat) ≤ b2 := h2a
    have h2b' : b2 ≤ (0xBF : Nat) := h2b
    have hb1lo : (0x80 : Nat) ≤ b1 := by
      by_cases he : b0 = 0xE0
      · rw [if_pos he] at h1a'
        omega
      · rw [if_neg he] at h1a'
        omega
    have hb1hi : b1 ≤ (0xBF : Nat) := by
      by_cases he : b0 = 0xED
      · rw [if_pos he] at h1b'
        omega
      · rw [if_neg he] at h1b'
        omega
    have hlo : 0x800 ≤ (b0 % 16) * 4096 + (b1 % 64) * 64 + b2 % 64 := by
      by_cases he : b0 = 0xE0
      · rw [if_pos he] at h1a'
        subst he
        omega
      · rw [if_neg he] at h1a'
        omega
    have hns : ¬(0xD800 ≤ (b0 % 16) * 4096 + (b1 % 64) * 64 + b2 % 64 ∧
        (b0 % 16) * 4096 + (b1 % 64) * 64 + b2 % 64 ≤ 0xDFFF) := by
      by_cases he : b0 = 0xED
      · rw [if_pos he] at h1b'
        subst he
        omega
      · rw [if_neg he] at h1b'
        have hq : b0 % 16 ≠ 13 := by omega
        omega
    have hA : ¬(j ≥ data.length) := by omega
    have hB : ¬(b0 < 0x80) := by omega
    have hC : ¬(b0 < 0xC2) := by omega
    have hD : ¬(b0 ≤ 0xDF) := by omega
    have hD2 : b0 ≤ 0xEF := by omega
    have hL : j + 2 < data.length := hj2
    have hG : ((if b0 = 0xE0 then 0xA0 else 0x80) ≤ b1 ∧
        b1 ≤ (if b0 = 0xED then 0x9F else 0xBF)) ∧ (0x80 ≤ b2 ∧ b2 ≤ 0xBF) :=
      ⟨⟨h1a, h1b⟩, h2a, h2b⟩
    have hE1 : ¬((b0 % 16) * 4096 + (b1 % 64) * 64 + b2 % 64 ≤ 0x7F) := by omega
    have hE2 : ¬((b0 % 16) * 4096 + (b1 % 64) * 64 + b2 % 64 ≤ 0x7FF) := by omega
    have hE3 : ¬((b0 % 16) * 4096 + (b1 % 64) * 64 + b2 % 64 > 0x10FFFF ∨
        (0xD800 ≤ (b0 % 16) * 4096 + (b1 % 64) * 64 + b2 % 64 ∧
         (b0 % 16) * 4096 + (b1 % 64) * 64 + b2 % 64 ≤ 0xDFFF)) := by
      rintro (hx | hx)
      · omega
      · exact hns hx
    have hE4 : (b0 % 16) * 4096 + (b1 % 64) * 64 + b2 % 64 ≤ 0xFFFF := by omega
    have e0 : 0xE0 + ((b0 % 16) * 4096 + (b1 % 64) * 64 + b2 % 64) / 4096 = b0 := by omega
    have e1 : 0x80 + (((b0 % 16) * 4096 + (b1 % 64) * 64 + b2 % 64) / 64) % 64 = b1 := by omega
    have e2 : 0x80 + ((b0 % 16) * 4096 + (b1 % 64) * 64 + b2 % 64) % 64 = b2 := by omega
    refine ⟨(b0 % 16) * 4096 + (b1 % 64) * 64 + b2 % 64, ?_, ?_⟩
    · rw [utf8DecodeRuneAt, if_neg hA]
      dsimp only
      simp only [hg0, hg1, hg2]
      rw [if_neg hB, if_neg hC, if_neg hD, if_pos hD2, if_pos hL, if_pos hG]
      rfl
    · rw [utf8EncodeRune, if_neg hE1, if_neg hE2, if_neg hE3, if_pos hE4, e0, e1, e2]
  rcases s with _ | ⟨b4, s⟩
  · -- four bytes
    simp only [validScalarSeq, Bool.and_eq_true, decide_eq_true_eq] at hv
    obtain ⟨⟨⟨⟨⟨⟨⟨h0a, h0b⟩, h1a⟩, h1b⟩, h2a⟩, h2b⟩, h3a⟩, h3b⟩ := hv
    simp only [List.cons_append, List.nil_append] at h
    obtain ⟨hj, hg0, h'⟩ := dropAt h
    obtain ⟨hj1, hg1, h''⟩ := dropAt h'
    obtain ⟨hj2, hg2, h'''⟩ := dropAt h''
    obtain ⟨hj3, hg3, _⟩ := dropAt h'''
    have h0a' : (0xF0 : Nat) ≤ b0 := h0a
    have h0b' : b0 ≤ (0xF4 : Nat) := h0b
    have h1a' : (if b0 = 0xF0 then (0x90 : Nat) else 0x80) ≤ b1 := h1a
    have h1b' : b1 ≤ (if b0 = 0xF4 then (0x8F : Nat) else 0xBF) := h1b
    have h2a' : (0x80 : Nat) ≤ b2 := h2a
    have h2b' : b2 ≤ (0xBF : Nat) := h2b
    have h3a' : (0x80 : Nat) ≤ b3 := h3a
    have h3b' : b3 ≤ (0xBF : Nat) := h3b
    have hb1lo : (0x80 : Nat) ≤ b1 := by
      by_cases he : b0 = 0xF0
      · rw [if_pos he] at h1a'
        omega
      · rw [if_neg he] at h1a'
        omega
    have hb1hi : b1 ≤ (0xBF : Nat) := by
      by_cases he : b0 = 0xF4
      · rw [if_pos he] at h1b'
        omega
      · rw [if_neg he] at h1b'
        omega
    have hlo : 0x10000 ≤ (b0 % 8) * 262144 + (b1 % 64) * 4096 + (b2 % 64) * 64 + b3 % 64 := by
      by_cases he : b0 = 0xF0
      · rw [if_pos he] at h1a'
        subst he
        omega
      · rw [if_neg he] at h1a'
        omega
    have hhi : (b0 % 8) * 262144 + (b1 % 64) * 4096 + (b2 % 64) * 64 + b3 % 64 ≤ 0x10FFFF := by
      by_cases he : b0 = 0xF4
      · rw [if_pos he] at h1b'
        subst he
        omega
      · rw [if_neg he] at h1b'
        have hq : b0 % 8 ≤ 3 := by omega
        omega
    have hA : ¬(j ≥ data.length) := by omega
    have hB : ¬(b0 < 0x80) := by omega
    have hC : ¬(b0 < 0xC2) := by omega
    have hD : ¬(b0 ≤ 0xDF) := by omega
    have hD2 : ¬(b0 ≤ 0xEF) := by omega
    have hD3 : b0 ≤ 0xF4 := by omega
    have hL : j + 3 < data.length := hj3
    have hG : ((if b0 = 0xF0 then 0x90 else 0x80) ≤ b1 ∧
        b1 ≤ (if b0 = 0xF4 then 0x8F else 0xBF)) ∧
        (0x80 ≤ b2 ∧ b2 ≤ 0xBF) ∧ (0x80 ≤ b3 ∧ b3 ≤ 0xBF) :=
      ⟨⟨h1a, h1b⟩, ⟨h2a, h2b⟩, h3a, h3b⟩
    have hE1 : ¬((b0 % 8) * 262144 + (b1 % 64) * 4096 + (b2 % 64) * 64 + b3 % 64 ≤ 0x7F) := by
      omega
    have hE2 : ¬((b0 % 8) * 262144 + (b1 % 64) * 4096 + (b2 % 64) * 64 + b3 % 64 ≤ 0x7FF) := by
      omega
    have hE3 : ¬((b0 % 8) * 262144 + (b1 % 64) * 4096 + (b2 % 64) * 64 + b3 % 64 > 0x10FFFF ∨
        (0xD800 ≤ (b0 % 8) * 262144 + (b1 % 64) * 4096 + (b2 % 64) * 64 + b3 % 64 ∧
         (b0 % 8) * 262144 + (b1 % 64) * 4096 + (b2 % 64) * 64 + b3 % 64 ≤ 0xDFFF)) := by
      rintro (hx | hx)
      · omega
      · omega
    have hE4 : ¬((b0 % 8) * 262144 + (b1 % 64) * 4096 + (b2 % 64) * 64 + b3 % 64 ≤ 0xFFFF) := by
      omega
    have e0 : 0xF0 + ((b0 % 8) * 262144 + (b1 % 64) * 4096 + (b2 % 64) * 64 + b3 % 64)
        / 262144 = b0 := by omega
    have e1 : 0x80 + (((b0 % 8) * 262144 + (b1 % 64) * 4096 + (b2 % 64) * 64 + b3 % 64)
        / 4096) % 64 = b1 := by omega
    have e2 : 0x80 + (((b0 % 8) * 262144 + (b1 % 64) * 4096 + (b2 % 64) * 64 + b3 % 64)
        / 64) % 64 = b2 := by omega
    have e3 : 0x80 + ((b0 % 8) * 262144 + (b1 % 64) * 4096 + (b2 % 64) * 64 + b3 % 64)
        % 64 = b3 := by omega
    refine ⟨(b0 % 8) * 262144 + (b1 % 64) * 4096 + (b2 % 64) * 64 + b3 % 64, ?_, ?_⟩
    · rw [utf8DecodeRuneAt, if_neg hA]
      dsimp only
      simp only [hg0, hg1, hg2, hg3]
      rw [if_neg hB, if_neg hC, if_neg hD, if_neg hD2, if_pos hD3, if_pos hL, if_pos hG]
      rfl
    · rw [utf8EncodeRune, if_neg hE1, if_neg hE2, if_neg hE3, if_neg hE4, e0, e1, e2, e3]
  · exact absurd hv (by simp [validScalarSeq])

/-- C7, amended: per-item stepping rules of the decoding string loop.  A
closing quote ends the loop; a valid unescaped scalar sequence (including
multi-byte UTF-8) is copied through unchanged; the single-character escapes
append exactly their mapped byte (escOut); a well-formed case-insensitive
hex escape appends the UTF-8 encoding of its code point, where (last
conjunct, correcting the claim) a lone surrogate half encodes as the
replacement character EF BF BD rather than as that code point; an invalid
escape character, an invalid hex digit, and an unterminated string make the
loop fail, which readString reports as the invalid-string syntax error. -/
theorem c7_escape_decode_spec (data : List Nat) (fuel j : Nat) (chars : List Nat) :
    (∀ rest : List Nat, data.drop j = 34 :: rest →
      decodeStrLoop data (fuel + 1) j chars = some (j + 1, chars)) ∧
    (∀ s rest : List Nat, data.drop j = s ++ rest → validScalarSeq s = true →
      (∀ c : Nat, s = [c] → c ≠ 34 ∧ c ≠ 92) →
      decodeStrLoop data (fuel + 1) j chars =
        decodeStrLoop data fuel (j + s.length) (chars ++ s)) ∧
    (∀ (c : Nat) (out rest : List Nat), data.drop j = 92 :: c :: rest →
      escOut c = some out →
      decodeStrLoop data (fuel + 1) j chars =
        decodeStrLoop data fuel (j + 1 + 1) (chars ++ out)) ∧
    (∀ (h1 h2 h3 h4 d1 d2 d3 d4 : Nat) (rest : List Nat),
      data.drop j = 92 :: 117 :: h1 :: h2 :: h3 :: h4 :: rest →
      hexDigitVal h1 = some d1 → hexDigitVal h2 = some d2 →
      hexDigitVal h3 = some d3 → hexDigitVal h4 = some d4 →
      decodeStrLoop data (fuel + 1) j chars =
        decodeStrLoop data fuel (j + 1 + 1 + 4)
          (chars ++ utf8EncodeRune (((d1 * 16 + d2) * 16 + d3) * 16 + d4))) ∧
    (∀ (c : Nat) (rest : List Nat), data.drop j = 92 :: c :: rest →
      c < 0x80 → escOut c = none → c ≠ 117 →
      decodeStrLoop data (fuel + 1) j chars = none) ∧
    (∀ rest : List Nat, data.drop j = 92 :: 117 :: rest →
      readHexChar data (j + 1 + 1) = none →
      decodeStrLoop data (fuel + 1) j chars = none) ∧
    (data.drop j = [] → decodeStrLoop data (fuel + 1) j chars = none) ∧
    (∀ tr : TokenReader, tr.options.readKey = false → tr.options.computeString = true →
      decodeStrLoop tr.data (tr.data.length + 1) tr.pos (tr.charBuffer.getD []) = none →
      tr.readString = (tr, .error (.synErr errMsgInvalidString "" tr.lastPos))) ∧
    (∀ v : Nat, 0xD800 ≤ v → v ≤ 0xDFFF → utf8EncodeRune v = [0xEF, 0xBF, 0xBD]) := by
  refine ⟨?_, ?_, ?_, ?_, ?_, ?_, ?_, ?_, ?_⟩
  · -- closing quote
    intro rest hdrop
    have hd : utf8DecodeRuneAt data j = some (34, 1) := utf8_ascii hdrop (by decide)
    rw [decodeStrLoop, hd]
    dsimp only
    rw [if_pos rfl]
  · -- unescaped scalar copied through
    intro s rest hdrop hv hsingle
    obtain ⟨ch, hdec, henc⟩ := utf8_valid_seq hdrop hv
    have hne : ch ≠ 34 ∧ ch ≠ 92 := by
      by_cases hch : ch ≤ 0x7F
      · rw [utf8EncodeRune, if_pos hch] at henc
        exact hsingle ch henc.symm
      · constructor <;> omega
    rw [decodeStrLoop, hdec]
    dsimp only
    rw [if_neg hne.1, if_pos hne.2, appendRune, henc]
  · -- single-character escapes
    intro c out rest hdrop hesc
    have hd0 : utf8DecodeRuneAt data j = some (92, 1) := utf8_ascii hdrop (by decide)
    have hdrop1 : data.drop (j + 1) = c :: rest := (dropAt hdrop).2.2
    by_cases k1 : c = 34 ∨ c = 92 ∨ c = 47
    · rw [escOut, if_pos k1] at hesc
      have hout : [c] = out := Option.some.inj hesc
      have hc80 : c < 0x80 := by rcases k1 with rfl | rfl | rfl <;> decide
      have hd1 : utf8DecodeRuneAt data (j + 1) = some (c, 1) := utf8_ascii hdrop1 hc80
      rw [decodeStrLoop, hd0]
      dsimp only
      rw [if_neg (by decide), if_neg (by decide), hd1]
      dsimp only
      rw [if_pos k1, appendRune]
      have he : utf8EncodeRune c = [c] := by
        rw [utf8EncodeRune, if_pos (by omega)]
      rw [he, hout]
    · by_cases k2 : c = 98
      · subst k2
        rw [escOut, if_neg k1, if_pos rfl] at hesc
        have hout : [(8 : Nat)] = out := Option.some.inj hesc
        have hd1 : utf8DecodeRuneAt data (j + 1) = some (98, 1) := utf8_ascii hdrop1 (by decide)
        rw [decodeStrLoop, hd0]
        dsimp only
        rw [if_neg (by decide), if_neg (by decide), hd1]
        dsimp only
        rw [if_neg k1, if_pos rfl, appendRune, show utf8EncodeRune 8 = [8] from rfl, hout]
      · by_cases k3 : c = 102
        · subst k3
          rw [escOut, if_neg k1, if_neg k2, if_pos rfl] at hesc
          have hout : [(12 : Nat)] = out := Option.some.inj hesc
          have hd1 : utf8DecodeRuneAt data (j + 1) = some (102, 1) :=
            utf8_ascii hdrop1 (by decide)
          rw [decodeStrLoop, hd0]
          dsimp only
          rw [if_neg (by decide), if_neg (by decide), hd1]
          dsimp only
          rw [if_neg k1, if_neg k2, if_pos rfl, appendRune,
            show utf8EncodeRune 12 = [12] from rfl, hout]
        · by_cases k4 : c = 110
          · subst k4
            rw [escOut, if_neg k1, if_neg k2, if_neg k3, if_pos rfl] at hesc
            have hout : [(10 : Nat)] = out := Option.some.inj hesc
            have hd1 : utf8DecodeRuneAt data (j + 1) = some (110, 1) :=
              utf8_ascii hdrop1 (by decide)
            rw [decodeStrLoop, hd0]
            dsimp only
            rw [if_neg (by decide), if_neg (by decide), hd1]
            dsimp only
            rw [if_neg k1, if_neg k2, if_neg k3, if_pos rfl, appendRune,
              show utf8EncodeRune 10 = [10] from rfl, hout]
          · by_cases k5 : c = 114
            · subst k5
              rw [escOut, if_neg k1, if_neg k2, if_neg k3, if_neg k4, if_pos rfl] at hesc
              have hout : [(13 : Nat)] = out := Option.some.inj hesc
              have hd1 : utf8DecodeRuneAt data (j + 1) = some (114, 1) :=
                utf8_ascii hdrop1 (by decide)
              rw [decodeStrLoop, hd0]
              dsimp only
              rw [if_neg (by decide), if_neg (by decide), hd1]
              dsimp only
              rw [if_neg k1, if_neg k2, if_neg k3, if_neg k4, if_pos rfl, appendRune,
                show utf8EncodeRune 13 = [13] from rfl, hout]
            · by_cases k6 : c = 116
              · subst k6
                rw [escOut, if_neg k1, if_neg k2, if_neg k3, if_neg k4, if_neg k5,
                  if_pos rfl] at hesc
                have hout : [(9 : Nat)] = out := Option.some.inj hesc
                have hd1 : utf8DecodeRuneAt data (j + 1) = some (116, 1) :=
                  utf8_ascii hdrop1 (by decide)
                rw [decodeStrLoop, hd0]
                dsimp only
                rw [if_neg (by decide), if_neg (by decide), hd1]
                dsimp only
                rw [if_neg k1, if_neg k2, if_neg k3, if_neg k4, if_neg k5, if_pos rfl,
                  appendRune, show utf8EncodeRune 9 = [9] from rfl, hout]
              · rw [escOut, if_neg k1, if_neg k2, if_neg k3, if_neg k4, if_neg k5,
                  if_neg k6] at hesc
                exact absurd hesc (by simp)
  · -- \uXXXX with four valid hex digits
    intro h1 h2 h3 h4 d1 d2 d3 d4 rest hdrop hx1 hx2 hx3 hx4
    have hd0 : utf8DecodeRuneAt data j = some (92, 1) := utf8_ascii hdrop (by decide)
    have hdrop1 : data.drop (j + 1) = 117 :: h1 :: h2 :: h3 :: h4 :: rest := (dropAt hdrop).2.2
    have hd1 : utf8DecodeRuneAt data (j + 1) = some (117, 1) := utf8_ascii hdrop1 (by decide)
    have hdrop2 : data.drop (j + 1 + 1) = h1 :: h2 :: h3 :: h4 :: rest := (dropAt hdrop1).2.2
    obtain ⟨hj2, hg1, hdrop3⟩ := dropAt hdrop2
    obtain ⟨hj3, hg2, hdrop4⟩ := dropAt hdrop3
    obtain ⟨hj4, hg3, hdrop5⟩ := dropAt hdrop4
    obtain ⟨hj5, hg4, _⟩ := dropAt hdrop5
    have hhex : readHexChar data (j + 1 + 1) =
        some ((((d1 * 16 + d2) * 16 + d3) * 16 + d4), j + 1 + 1 + 4) := by
      rw [readHexChar, if_pos (by omega)]
      rw [show j + 1 + 1 + 1 = j + 1 + 1 + 1 from rfl]
      have hg2' : data.getD (j + 1 + 1 + 1) 0 = h2 := hg2
      have hg3' : data.getD (j + 1 + 1 + 2) 0 = h3 := by
        rw [show j + 1 + 1 + 2 = j + 1 + 1 + 1 + 1 by omega]
        exact hg3
      have hg4' : data.getD (j + 1 + 1 + 3) 0 = h4 := by
        rw [show j + 1 + 1 + 3 = j + 1 + 1 + 1 + 1 + 1 by omega]
        exact hg4
      rw [hg1, hg2', hg3', hg4', hx1, hx2, hx3, hx4]
    rw [decodeStrLoop, hd0]
    dsimp only
    rw [if_neg (by decide), if_neg (by decide), hd1]
    dsimp only
    rw [if_neg (by decide), if_neg (by decide), if_neg (by decide), if_neg (by decide),
      if_neg (by decide), if_neg (by decide), if_pos rfl, hhex]
    dsimp only
    rw [appendRune]
  · -- invalid escape character
    intro c rest hdrop hc80 hesc hc117
    have hd0 : utf8DecodeRuneAt data j = some (92, 1) := utf8_ascii hdrop (by decide)
    have hdrop1 : data.drop (j + 1) = c :: rest := (dropAt hdrop).2.2
    have hd1 : utf8DecodeRuneAt data (j + 1) = some (c, 1) := utf8_ascii hdrop1 hc80
    have hn1 : ¬(c = 34 ∨ c = 92 ∨ c = 47) := by
      intro hx
      rw [escOut, if_pos hx] at hesc
      exact Option.noConfusion hesc
    have hn2 : ¬(c = 98) := by
      intro hx
      rw [escOut, if_neg hn1, if_pos hx] at hesc
      exact Option.noConfusion hesc
    have hn3 : ¬(c = 102) := by
      intro hx
      rw [escOut, if_neg hn1, if_neg hn2, if_pos hx] at hesc
      exact Option.noConfusion hesc
    have hn4 : ¬(c = 110) := by
      intro hx
      rw [escOut, if_neg hn1, if_neg hn2, if_neg hn3, if_pos hx] at hesc
      exact Option.noConfusion hesc
    have hn5 : ¬(c = 114) := by
      intro hx
      rw [escOut, if_neg hn1, if_neg hn2, if_neg hn3, if_neg hn4, if_pos hx] at hesc
      exact Option.noConfusion hesc
    have hn6 : ¬(c = 116) := by
      intro hx
      rw [escOut, if_neg hn1, if_neg hn2, if_neg hn3, if_neg hn4, if_neg hn5, if_pos hx]
        at hesc
      exact Option.noConfusion hesc
    rw [decodeStrLoop, hd0]
    dsimp only
    rw [if_neg (by decide), if_neg (by decide), hd1]
    dsimp only
    rw [if_neg hn1, if_neg hn2, if_neg hn3, if_neg hn4, if_neg hn5, if_neg hn6,
      if_neg hc117]
  · -- \u with invalid hex digits
    intro rest hdrop hhex
    have hd0 : utf8DecodeRuneAt data j = some (92, 1) := utf8_ascii hdrop (by decide)
    have hdrop1 : data.drop (j + 1) = 117 :: rest := (dropAt hdrop).2.2
    have hd1 : utf8DecodeRuneAt data (j + 1) = some (117, 1) := utf8_ascii hdrop1 (by decide)
    rw [decodeStrLoop, hd0]
    dsimp only
    rw [if_neg (by decide), if_neg (by decide), hd1]
    dsimp only
    rw [if_neg (by decide), if_neg (by decide), if_neg (by decide), if_neg (by decide),
      if_neg (by decide), if_neg (by decide), if_pos rfl, hhex]
  · -- unterminated input
    intro hdrop
    have hlen : data.length ≤ j := by
      rcases dropLen hdrop with h | h
      · simp only [List.length_nil, Nat.zero_add] at h
        omega
      · exact h
    have hd : utf8DecodeRuneAt data j = none := by
      rw [utf8DecodeRuneAt, if_pos (by omega)]
    rw [decodeStrLoop, hd]
  · -- a failed decode loop is the invalid-string syntax error
    intro tr hrk hcs hnone
    rw [TokenReader.readString]
    have hcond : ¬((tr.options.readKey || !tr.options.computeString) = true) := by
      rw [hrk, hcs]
      decide
    rw [if_neg hcond]
    dsimp only
    rw [hnone]
  · -- surrogate halves are replaced, not encoded
    intro v hv1 hv2
    rw [utf8EncodeRune, if_neg (by omega), if_neg (by omega), if_pos (Or.inr ⟨hv1, hv2⟩)]

/-- C7 witness: concrete instances of every decoding rule — closing quote,
multi-byte passthrough (C3 A9, U+00E9), the n escape, the hex escape
uD800 whose surrogate half becomes EF BF BD, an invalid escape x, invalid
hex digits, an unterminated string, and the resulting invalid-string
syntax error from readString. -/
theorem c7_witness :
    decodeStrLoop [34] 1 0 [] = some (1, []) ∧
    decodeStrLoop [195, 169, 34] 2 0 [] = decodeStrLoop [195, 169, 34] 1 2 [195, 169] ∧
    decodeStrLoop [92, 110, 34] 2 0 [] = decodeStrLoop [92, 110, 34] 1 2 [10] ∧
    decodeStrLoop [92, 117, 68, 56, 48, 48] 2 0 [] =
      decodeStrLoop [92, 117, 68, 56, 48, 48] 1 6 [239, 191, 189] ∧
    utf8EncodeRune 0xD800 = [0xEF, 0xBF, 0xBD] ∧
    decodeStrLoop [92, 120, 34] 2 0 [] = none ∧
    decodeStrLoop [92, 117, 90, 90, 90, 90] 2 0 [] = none ∧
    decodeStrLoop [] 1 0 [] = none ∧
    (({ data := [34, 92, 120, 34], len := 4, pos := 1, charBuffer := some []
        options := { computeString := true } } : TokenReader)).readString.2 =
      .error (.synErr errMsgInvalidString "" 0) := by
  refine ⟨?_, ?_, ?_, ?_, ?_, ?_, ?_, ?_, ?_⟩
  · exact (c7_escape_decode_spec [34] 0 0 []).1 [] rfl
  · exact (c7_escape_decode_spec [195, 169, 34] 1 0 []).2.1 [195, 169] [34] rfl (by decide)
      (by intro c h; simp at h)
  · exact (c7_escape_decode_spec [92, 110, 34] 1 0 []).2.2.1 110 [10] [34] rfl rfl
  · have h4 := (c7_escape_decode_spec [92, 117, 68, 56, 48, 48] 1 0 []).2.2.2.1
      68 56 48 48 13 8 0 0 [] rfl rfl rfl rfl rfl
    rw [h4]
    rfl
  · exact (c7_escape_decode_spec [] 0 0 []).2.2.2.2.2.2.2.2 0xD800 (by decide) (by decide)
  · exact (c7_escape_decode_spec [92, 120, 34] 1 0 []).2.2.2.2.1 120 [34] rfl
      (by decide) rfl (by decide)
  · exact (c7_escape_decode_spec [92, 117, 90, 90, 90, 90] 1 0 []).2.2.2.2.2.1
      [90, 90, 90, 90] rfl rfl
  · exact (c7_escape_decode_spec [] 0 0 []).2.2.2.2.2.2.1 rfl
  · have h8 := (c7_escape_decode_spec [] 0 0 []).2.2.2.2.2.2.2.1
      { data := [34, 92, 120, 34], len := 4, pos := 1, charBuffer := some []
        options := { computeString := true } } rfl rfl rfl
    rw [h8]

/-- C8 witness: on `"\n":1` (escaped key, string decoding on) the raw
bytes `\n` come back; on `"k" ` the key with only trailing whitespace
gives the end-of-input error; on `"k"}` the close brace gives the
expected-colon syntax error. -/
theorem c8_witness :
    (({ data := [34, 92, 110, 34, 58, 49], len := 6
        options := { computeString := true } } : TokenReader)).PropertyName.2 =
      .ok [92, 110] ∧
    (({ data := [34, 107, 34, 32], len := 4
        options := { computeString := true } } : TokenReader)).PropertyName.2 =
      .error .eofErr ∧
    (({ data := [34, 107, 34, 125], len := 4
        options := { computeString := true } } : TokenReader)).PropertyName.2 =
      .error (.synErr errMsgExpectedColon
        (Token.description { kind := .delimiterToken, stringValue := [107], delimiter := 125 })
        3) := by
  refine ⟨?_, ?_, ?_⟩
  · have hA := (c8_property_name_spec
      { data := [34, 92, 110, 34, 58, 49], len := 6, options := { computeString := true } }
      [] [92, 110] rfl rfl rfl rfl (by decide)).1 [] [49] rfl rfl
    rw [hA]
  · have hB := (c8_property_name_spec
      { data := [34, 107, 34, 32], len := 4, options := { computeString := true } }
      [] [107] rfl rfl rfl rfl (by decide)).2.1 [32] rfl (by decide)
    rw [hB]
  · have hC := (c8_property_name_spec
      { data := [34, 107, 34, 125], len := 4, options := { computeString := true } }
      [] [107] rfl rfl rfl rfl (by decide)).2.2 [] 125 []
      { data := [34, 107, 34, 125], pos := 4, len := 4, lastPos := 3
        tokenBuffer := { kind := .delimiterToken, stringValue := [107], delimiter := 125 }
        options := { computeString := true, readKey := true } }
      (.ok { kind := .delimiterToken, stringValue := [107], delimiter := 125 })
      rfl rfl (by decide) (by decide) (by rfl)
    rw [hC]
    rfl

end JR
